import Mathlib

/-!
Shallow embedding of the anycrawl bandwidth-accounting core:

* `BandwidthManager` (src/packages/scrape/src/managers/Bandwidth.ts): a
  process-wide traffic aggregator keeping a pending `TrafficDelta` per job,
  drained by `flushJob` / `flushAll` into an external persistence call
  (`addJobTraffic`), with merge-back on persistence failure.
* the CDP request-lifecycle tracker (src/unnamed/part_000,
  `getOrCreateBandwidthTracker`): a per-session event-driven state machine
  that turns `Network.*` protocol events into finalized `RequestTrafficMetric`
  records handed to the aggregator.

JavaScript `Map<string, T>` state is embedded as an association list with the
exact JS semantics (`set` replaces the existing entry for a key or appends a
new one, `delete` removes the entry for a key, `get` finds it); JS `number`
byte counters are embedded as `Int`; `Date.now()` reads and the results of
external calls (`addJobTraffic`, `estimateRequestBytes`, `Buffer.byteLength`)
are passed in as explicit parameters; the `await` points of the TypeScript
become the boundaries between atomic actions of a small-step machine.

The file is organised as definitions first, then the theorems about them.
-/

/-! ## Definitions -/

/-! ### Association-list embedding of JS `Map` -/

/-- JS `Map.prototype.get`: first (and, for a real JS map, only) value bound
to the key. -/
def findVal {κ α : Type} [DecidableEq κ] (k : κ) : List (κ × α) → Option α
  | [] => none
  | (k', v) :: rest => if k' = k then some v else findVal k rest

/-- JS `Map.prototype.set`: replace the entry for the key in place, or append
a fresh entry at the end. -/
def setKey {κ α : Type} [DecidableEq κ] (k : κ) (v : α) : List (κ × α) → List (κ × α)
  | [] => [(k, v)]
  | (k', v') :: rest => if k' = k then (k, v) :: rest else (k', v') :: setKey k v rest

/-- JS `Map.prototype.delete`: drop the entry for the key.  (JS map keys are
unique, so dropping every occurrence coincides with dropping the entry.) -/
def eraseKey {κ α : Type} [DecidableEq κ] (k : κ) : List (κ × α) → List (κ × α)
  | [] => []
  | (k', v) :: rest => if k' = k then eraseKey k rest else (k', v) :: eraseKey k rest

/-! ### Data model (`@anycrawl/libs` types used by both components) -/

/-- `RequestEngine` from `@anycrawl/libs`:
`"playwright" | "puppeteer" | "cheerio"`. -/
inductive RequestEngine : Type
  | playwright
  | puppeteer
  | cheerio
deriving DecidableEq, Repr

/-- Identity of one metric.  The source builds the metric id as the string
`` `${sessionId}:${requestId}:${hopIndex}` ``; it is embedded as the triple of
those three components. -/
structure MetricId : Type where
  session : String
  requestId : String
  hop : Nat
deriving DecidableEq, Repr

/-- `RequestTrafficMetric` from `@anycrawl/libs` (`RequestMetricBase` plus the
byte counters).  Optional TS fields are `Option`; JS numeric byte counters are
`Int`; timestamps (`Date.now()` readings) are `Nat`. -/
structure RequestTrafficMetric : Type where
  id : MetricId
  jobId : String
  engine : RequestEngine
  url : String
  method : String
  status : Option Int
  startTime : Nat
  endTime : Option Nat
  failed : Option Bool
  fromCache : Option Bool
  requestBytes : Int
  responseBytes : Int
  totalBytes : Int
deriving DecidableEq, Repr

/-- `TrafficDelta` from `Bandwidth.ts`. -/
structure TrafficDelta : Type where
  totalBytes : Int
  requestBytes : Int
  responseBytes : Int
  requestCount : Int
deriving DecidableEq, Repr

/-- `createEmptyDelta` from `Bandwidth.ts`. -/
def createEmptyDelta : TrafficDelta :=
  { totalBytes := 0, requestBytes := 0, responseBytes := 0, requestCount := 0 }

/-- Componentwise sum of two deltas (the shape of every `+=` block in
`Bandwidth.ts`). -/
def addDelta (a b : TrafficDelta) : TrafficDelta :=
  { totalBytes := a.totalBytes + b.totalBytes
    requestBytes := a.requestBytes + b.requestBytes
    responseBytes := a.responseBytes + b.responseBytes
    requestCount := a.requestCount + b.requestCount }

/-- The contribution `recordRequest` adds for one accepted metric: its three
byte counters and a request count of 1. -/
def metricContrib (m : RequestTrafficMetric) : TrafficDelta :=
  { totalBytes := m.totalBytes
    requestBytes := m.requestBytes
    responseBytes := m.responseBytes
    requestCount := 1 }

/-- All four counters of a delta are non-negative. -/
def nonnegDelta (d : TrafficDelta) : Prop :=
  0 ≤ d.totalBytes ∧ 0 ≤ d.requestBytes ∧ 0 ≤ d.responseBytes ∧ 0 ≤ d.requestCount

instance (d : TrafficDelta) : Decidable (nonnegDelta d) := by
  unfold nonnegDelta; infer_instance

/-! ### `BandwidthManager` (Bandwidth.ts) as a small-step machine -/

/-- The manager's mutable state.  `pendingByJobId` and `flushRunning` are the
fields of the TypeScript class.  `inFlight` holds the deltas that a flush has
already removed from the pending map but whose `persist` call has not yet
completed (in the source these live in the local variables `delta` /
`pending` across an `await`); `writes` is the ghost log of successful
`addJobTraffic` calls. -/
structure AggState : Type where
  pendingByJobId : List (String × TrafficDelta)
  flushRunning : Bool
  inFlight : List (String × TrafficDelta)
  writes : List (String × TrafficDelta)
deriving DecidableEq, Repr

/-- A fresh `BandwidthManager`. -/
def initAgg : AggState :=
  { pendingByJobId := [], flushRunning := false, inFlight := [], writes := [] }

/-- `BandwidthManager.recordRequest`: no-op unless the metric has a truthy
`jobId` (JS `!metric.jobId` is true exactly for the empty string here) and a
strictly positive `totalBytes`; otherwise add the metric's contributions into
the job's pending delta, creating it if absent. -/
def recordRequest (m : RequestTrafficMetric) (s : AggState) : AggState :=
  if m.jobId = "" ∨ m.totalBytes ≤ 0 then s
  else
    let current := (findVal m.jobId s.pendingByJobId).getD createEmptyDelta
    { s with pendingByJobId :=
        setKey m.jobId (addDelta current (metricContrib m)) s.pendingByJobId }

/-- The catch-block of `BandwidthManager.persist`: merge the failed delta back
into the job's pending bucket by componentwise addition (`current = get(jobId)
?? createEmptyDelta(); current.x += delta.x; set(jobId, current)`). -/
def mergeBack (j : String) (d : TrafficDelta) (l : List (String × TrafficDelta)) :
    List (String × TrafficDelta) :=
  setKey j (addDelta ((findVal j l).getD createEmptyDelta) d) l

/-- Remove the first in-flight delta for a job, returning it and the rest. -/
def takeFirst (j : String) :
    List (String × TrafficDelta) → Option (TrafficDelta × List (String × TrafficDelta))
  | [] => none
  | (k, d) :: rest =>
    if k = j then some (d, rest)
    else (takeFirst j rest).map (fun p => (p.1, (k, d) :: p.2))

/-- The atomic actions of the manager; each is a maximal `await`-free segment
of the source, so arbitrary interleavings of recording, flushing and
persistence completion are exactly the action sequences of this machine.

* `record` is all of `recordRequest` (no `await` inside).
* `flushJobStart` is `flushJob` up to its `await this.persist(...)`: look up
  the job's delta, return if absent, delete it from the pending map.
* `flushAllStart` is `flushAll` up to its `await Promise.all`: return if a
  flush is already running or nothing is pending, set `flushRunning`,
  snapshot the pending entries and clear the map.
* `persistStep j ok` is the completion of one in-flight `persist(j, delta)`
  call, `ok` telling whether the awaited `addJobTraffic` succeeded: skip if
  the delta's `totalBytes <= 0`, log the write on success, merge the delta
  back into the pending map on failure.
* `flushAllEnd` is `flushAll`'s `finally` block. -/
inductive AggAction : Type
  | record (m : RequestTrafficMetric)
  | flushJobStart (jobId : String)
  | flushAllStart
  | persistStep (jobId : String) (ok : Bool)
  | flushAllEnd
deriving DecidableEq, Repr

def aggStep (a : AggAction) (s : AggState) : AggState :=
  match a with
  | .record m => recordRequest m s
  | .flushJobStart j =>
    match findVal j s.pendingByJobId with
    | none => s
    | some d =>
      { s with pendingByJobId := eraseKey j s.pendingByJobId
               inFlight := s.inFlight ++ [(j, d)] }
  | .flushAllStart =>
    if s.flushRunning then s
    else if s.pendingByJobId.isEmpty then s
    else
      { s with flushRunning := true
               inFlight := s.inFlight ++ s.pendingByJobId
               pendingByJobId := [] }
  | .persistStep j ok =>
    match takeFirst j s.inFlight with
    | none => s
    | some (d, rest) =>
      if d.totalBytes ≤ 0 then { s with inFlight := rest }
      else if ok then { s with inFlight := rest, writes := s.writes ++ [(j, d)] }
      else { s with inFlight := rest, pendingByJobId := mergeBack j d s.pendingByJobId }
  | .flushAllEnd => { s with flushRunning := false }

def runAgg (acts : List AggAction) (s : AggState) : AggState :=
  acts.foldl (fun st a => aggStep a st) s

/-- The job's pending delta as the spec reads it: the bucket if present,
otherwise the empty delta. -/
def pendingDelta (j : String) (s : AggState) : TrafficDelta :=
  (findVal j s.pendingByJobId).getD createEmptyDelta

/-! ### Spec-side accounting definitions -/

/-- The spec's filter of which metrics count for job `j`: the metric's job id
is `j`, is present (non-empty), and the metric's `totalBytes` is strictly
positive. -/
def countsFor (j : String) (m : RequestTrafficMetric) : Bool :=
  decide (m.jobId = j ∧ m.jobId ≠ "" ∧ 0 < m.totalBytes)

/-- Sum of the contributions of the metrics of job `j` in a list. -/
def jobSum (j : String) (ms : List RequestTrafficMetric) : TrafficDelta :=
  (ms.filter (countsFor j)).foldr (fun m acc => addDelta (metricContrib m) acc)
    createEmptyDelta

/-- A single action's contribution to job `j`'s recorded total. -/
def actContrib (j : String) (a : AggAction) : TrafficDelta :=
  match a with
  | .record m => if countsFor j m then metricContrib m else createEmptyDelta
  | _ => createEmptyDelta

/-- Total recorded (and positively filtered) traffic of job `j` in a trace. -/
def recordedSum (j : String) (acts : List AggAction) : TrafficDelta :=
  (acts.map (actContrib j)).foldr addDelta createEmptyDelta

/-- Sum of the deltas a list of map entries holds for job `j`. -/
def keySum (j : String) (l : List (String × TrafficDelta)) : TrafficDelta :=
  (l.filter (fun p => decide (p.1 = j))).foldr (fun p acc => addDelta p.2 acc)
    createEmptyDelta

/-- Everything the manager accounts to job `j` in a state: its pending delta,
its in-flight deltas and its successfully persisted deltas. -/
def accounted (j : String) (s : AggState) : TrafficDelta :=
  addDelta (pendingDelta j s) (addDelta (keySum j s.inFlight) (keySum j s.writes))

/-- Inductive invariant of the manager machine: pending keys are unique (a JS
map), every pending and in-flight delta has strictly positive `totalBytes`,
and job-wise accounting matches `R`. -/
def AggInvariant (s : AggState) (R : String → TrafficDelta) : Prop :=
  (s.pendingByJobId.map Prod.fst).Nodup ∧
  (∀ p ∈ s.pendingByJobId, 0 < p.2.totalBytes) ∧
  (∀ p ∈ s.inFlight, 0 < p.2.totalBytes) ∧
  (∀ j, accounted j s = R j)

/-! ### `persist` / `flushJob` / `flushAll` with an exception-throwing
persistence collaborator (for the no-throw contract)

Here the external `addJobTraffic` is an oracle that may return any
`Except String Unit`, `.error` being a thrown exception.  The functions
return `Except String AggState`, `.error` meaning the operation itself threw.
`Promise.all` is sequentialised, which is adequate for the no-throw and
skip properties. -/

/-- `BandwidthManager.persist`: skip non-positive deltas; otherwise run the
external write, logging it on success and merging the delta back into the
pending map in the `catch` block.  The `catch` swallows every error. -/
def persistE (outcome : Except String Unit) (j : String) (d : TrafficDelta)
    (s : AggState) : Except String AggState :=
  if d.totalBytes ≤ 0 then .ok s
  else
    match outcome with
    | .ok _ => .ok { s with writes := s.writes ++ [(j, d)] }
    | .error _ => .ok { s with pendingByJobId := mergeBack j d s.pendingByJobId }

/-- `BandwidthManager.flushJob` against an arbitrary persistence oracle. -/
def flushJobE (oracle : String → TrafficDelta → Except String Unit) (j : String)
    (s : AggState) : Except String AggState :=
  match findVal j s.pendingByJobId with
  | none => .ok s
  | some d =>
    persistE (oracle j d) j d { s with pendingByJobId := eraseKey j s.pendingByJobId }

/-- `BandwidthManager.flushAll` against an arbitrary persistence oracle, the
`Promise.all` of persists sequentialised into a fold; the `finally` resets
`flushRunning` before the result is returned. -/
def flushAllE (oracle : String → TrafficDelta → Except String Unit)
    (s : AggState) : Except String AggState :=
  if s.flushRunning then .ok s
  else if s.pendingByJobId.isEmpty then .ok s
  else
    let pending := s.pendingByJobId
    let start := { s with flushRunning := true, pendingByJobId := ([] : List (String × TrafficDelta)) }
    match pending.foldlM (fun acc p => persistE (oracle p.1 p.2) p.1 p.2 acc) start with
    | .ok s' => .ok { s' with flushRunning := false }
    | .error e => .error e

/-! ### The CDP request-lifecycle tracker (src/unnamed/part_000)

One tracker is created per page by `getOrCreateBandwidthTracker`; its local
state (`currentJobId`, `activeRequestId`, `hopIndexByRequestId`, `metrics`)
is the closure state of the installed `client.on(...)` handlers.  The ghost
field `recorded` logs, in order, the metrics handed to
`bandwidthManager.recordRequest` by `finalizeHop`.  Each protocol event is
processed by exactly one synchronous handler, so the tracker is a
deterministic step machine over events; the `Date.now()` read of a step is
the `now` parameter, and the byte estimates computed from event payloads
(`estimateRequestBytes`, `Buffer.byteLength`) arrive as event fields. -/
structure TrackerState : Type where
  currentJobId : Option String
  activeRequestId : List (String × MetricId)
  hopIndexByRequestId : List (String × Nat)
  metrics : List (MetricId × RequestTrafficMetric)
  recorded : List RequestTrafficMetric
deriving DecidableEq, Repr

/-- Tracker state right after attachment. -/
def initTracker : TrackerState :=
  { currentJobId := none, activeRequestId := [], hopIndexByRequestId := []
    metrics := [], recorded := [] }

/-- JS truthiness of the `currentJobId : string | null` field: `null` and the
empty string are falsy. -/
def truthyJobId : Option String → Bool
  | none => false
  | some s => !(s = "")

/-- The tracker's protocol events, with the payload fields the handlers read.
`requestWillBeSent` carries the result of `estimateRequestBytes(params)` and
whether `params.redirectResponse` is attached; `requestWillBeSentExtraInfo`
carries `Buffer.byteLength(params.headersText)` (`none` when `headersText` is
falsy); the byte lengths of `dataReceived` / `loadingFinished` are
`Number(params.encodedDataLength || 0)`. -/
inductive CdpEvent : Type
  | requestWillBeSent (requestId : String) (url method : String) (estBytes : Int)
      (redirect : Bool)
  | requestWillBeSentExtraInfo (requestId : String) (headerBytes : Option Int)
  | responseReceived (requestId : String) (status : Option Int) (url : Option String)
      (fromDiskCache fromServiceWorker : Bool)
  | dataReceived (requestId : String) (encodedDataLength : Int)
  | loadingFinished (requestId : String) (encodedDataLength : Int)
  | loadingFailed (requestId : String)
  | setJobContext (jobId : String)
deriving DecidableEq, Repr

/-- `nextHopIndex`: current next index for the transport id (default 0),
post-incremented. -/
def nextHopIndex (requestId : String) (hops : List (String × Nat)) :
    Nat × List (String × Nat) :=
  let current := (findVal requestId hops).getD 0
  (current, setKey requestId (current + 1) hops)

/-- `finalizeHop`: if the metric id is present and still open, set `failed`,
compute `totalBytes = requestBytes + responseBytes`, set `endTime`, hand the
metric to `bandwidthManager.recordRequest` (the `recorded` ghost log) and
drop it from the open-metrics map; otherwise a silent no-op. -/
def finalizeHop (mid? : Option MetricId) (failed : Bool) (now : Nat)
    (s : TrackerState) : TrackerState :=
  match mid? with
  | none => s
  | some mid =>
    match findVal mid s.metrics with
    | none => s
    | some m =>
      let m' := { m with failed := some failed
                         totalBytes := m.requestBytes + m.responseBytes
                         endTime := some now }
      { s with recorded := s.recorded ++ [m'], metrics := eraseKey mid s.metrics }

/-- One protocol event, as handled by the `client.on(...)` callbacks
installed by `getOrCreateBandwidthTracker` (plus the handle's
`setJobContext`).  `sess` is the tracker's `sessionId` and `eng` its engine;
`now` is this step's `Date.now()` reading. -/
def trackerStep (sess : String) (eng : RequestEngine) (now : Nat) (e : CdpEvent)
    (s : TrackerState) : TrackerState :=
  match e with
  | .requestWillBeSent rid url meth est redirect =>
    match s.currentJobId with
    | none => s
    | some j =>
      if j = "" then s
      else
        let hopPair := nextHopIndex rid s.hopIndexByRequestId
        let s := { s with hopIndexByRequestId := hopPair.2 }
        let mid : MetricId := { session := sess, requestId := rid, hop := hopPair.1 }
        let s := if redirect then finalizeHop (findVal rid s.activeRequestId) false now s
                 else s
        let metric : RequestTrafficMetric :=
          { id := mid, jobId := j, engine := eng, url := url, method := meth
            status := none, startTime := now, endTime := none, failed := none
            fromCache := none, requestBytes := est, responseBytes := 0, totalBytes := 0 }
        { s with activeRequestId := setKey rid mid s.activeRequestId
                 metrics := setKey mid metric s.metrics }
  | .requestWillBeSentExtraInfo rid headerBytes =>
    match findVal rid s.activeRequestId, headerBytes with
    | some mid, some len =>
      match findVal mid s.metrics with
      | some m => { s with metrics := setKey mid { m with requestBytes := len } s.metrics }
      | none => s
    | _, _ => s
  | .responseReceived rid status url fromDiskCache fromServiceWorker =>
    match findVal rid s.activeRequestId with
    | none => s
    | some mid =>
      match findVal mid s.metrics with
      | none => s
      | some m =>
        let m' := { m with status := status
                           url := url.getD m.url
                           fromCache := some (fromDiskCache || fromServiceWorker) }
        { s with metrics := setKey mid m' s.metrics }
  | .dataReceived rid len =>
    match findVal rid s.activeRequestId with
    | none => s
    | some mid =>
      match findVal mid s.metrics with
      | none => s
      | some m =>
        let m' := { m with responseBytes := m.responseBytes + len }
        { s with metrics := setKey mid m' s.metrics }
  | .loadingFinished rid len =>
    let mid? := findVal rid s.activeRequestId
    let s :=
      match mid? with
      | none => s
      | some mid =>
        match findVal mid s.metrics with
        | none => s
        | some m =>
          if m.responseBytes = 0 then
            { s with metrics := setKey mid { m with responseBytes := len } s.metrics }
          else s
    let s := finalizeHop mid? false now s
    { s with activeRequestId := eraseKey rid s.activeRequestId }
  | .loadingFailed rid =>
    let s := finalizeHop (findVal rid s.activeRequestId) true now s
    { s with activeRequestId := eraseKey rid s.activeRequestId }
  | .setJobContext j => { s with currentJobId := some j }

/-- Run a list of timestamped events through the tracker. -/
def runTracker (sess : String) (eng : RequestEngine)
    (evs : List (Nat × CdpEvent)) (s : TrackerState) : TrackerState :=
  evs.foldl (fun st e => trackerStep sess eng e.1 e.2 st) s

/-! ### `getOrCreateBandwidthTracker`'s entry guard -/

/-- `ConfigurableEngineType` from `EngineConfigurator.js` (same engines as
`RequestEngine`; the guard only compares against `PLAYWRIGHT` and
`PUPPETEER`). -/
inductive ConfigurableEngineType : Type
  | playwright
  | puppeteer
  | cheerio
deriving DecidableEq, Repr

/-- How a `getOrCreateBandwidthTracker` call resolves at its entry guard. -/
inductive TrackerAttachOutcome : Type
  | noTracker
  | proceed
deriving DecidableEq, Repr

/-- The entry guard of `getOrCreateBandwidthTracker`: a falsy `page` (`null`
or `undefined`, embedded as `pagePresent = false`) or an engine other than
playwright/puppeteer returns `null`; otherwise the call proceeds to the
memoised lookup and CDP attachment. -/
def getOrCreateBandwidthTracker (pagePresent : Bool)
    (engineType : ConfigurableEngineType) : TrackerAttachOutcome :=
  if !pagePresent ∨ (engineType ≠ ConfigurableEngineType.playwright ∧
      engineType ≠ ConfigurableEngineType.puppeteer) then
    .noTracker
  else
    .proceed

/-- The initiation events of a redirect chain on one transport id: one
non-redirected `requestWillBeSent` followed by `k` redirect-carrying ones
(all at time 0, with the same url/method/estimate). -/
def chainEventsInit (rid u mth : String) (est : Int) (k : Nat) : List (Nat × CdpEvent) :=
  (0, CdpEvent.requestWillBeSent rid u mth est false) ::
    (List.range k).map (fun _ => (0, CdpEvent.requestWillBeSent rid u mth est true))

/-- A full redirect chain: `N` redirects then a final `loadingFinished`. -/
def chainEvents (rid u mth : String) (est : Int) (N : Nat) (lenF : Int) :
    List (Nat × CdpEvent) :=
  chainEventsInit rid u mth est N ++ [(0, CdpEvent.loadingFinished rid lenF)]

/-- The open (in-progress) metric of hop `k` of the chain. -/
def chainOpenMetric (sess : String) (eng : RequestEngine) (j rid u mth : String)
    (est : Int) (k : Nat) : RequestTrafficMetric :=
  { id := { session := sess, requestId := rid, hop := k }, jobId := j, engine := eng
    url := u, method := mth, status := none, startTime := 0, endTime := none
    failed := none, fromCache := none, requestBytes := est, responseBytes := 0
    totalBytes := 0 }

/-- Hop `k` of the chain as finalized by a redirect (not-failed, zero body). -/
def chainDoneMetric (sess : String) (eng : RequestEngine) (j rid u mth : String)
    (est : Int) (k : Nat) : RequestTrafficMetric :=
  { chainOpenMetric sess eng j rid u mth est k with
      failed := some false, totalBytes := est + 0, endTime := some 0 }

/-- The final hop of the chain as finalized by `loadingFinished` with fallback
byte length `lenF`. -/
def chainLastMetric (sess : String) (eng : RequestEngine) (j rid u mth : String)
    (est : Int) (N : Nat) (lenF : Int) : RequestTrafficMetric :=
  { chainOpenMetric sess eng j rid u mth est N with
      responseBytes := lenF, failed := some false, totalBytes := est + lenF
      endTime := some 0 }

/-- The tracker state after the first `k + 1` initiation events of the chain:
hop `k` open and active, hops `0..k-1` finalized in order. -/
def chainState (sess : String) (eng : RequestEngine) (j rid u mth : String)
    (est : Int) (k : Nat) : TrackerState :=
  { currentJobId := some j
    activeRequestId := [(rid, { session := sess, requestId := rid, hop := k })]
    hopIndexByRequestId := [(rid, k + 1)]
    metrics := [({ session := sess, requestId := rid, hop := k },
      chainOpenMetric sess eng j rid u mth est k)]
    recorded := (List.range k).map (chainDoneMetric sess eng j rid u mth est) }

/-- A concrete delta used when instantiating the retry property. -/
def c2Delta : TrafficDelta :=
  { totalBytes := 5, requestBytes := 2, responseBytes := 3, requestCount := 1 }

/-- A concrete aggregator state with one in-flight delta for job `"a"`. -/
def c2State : AggState :=
  { pendingByJobId := [], flushRunning := false
    inFlight := [("a", c2Delta)], writes := [] }

/-! ## Theorems -/

/-! ### Association-list lemmas -/

theorem findVal_nil {κ α : Type} [DecidableEq κ] (k : κ) :
    findVal (α := α) k [] = none := rfl

theorem findVal_cons {κ α : Type} [DecidableEq κ] (k k' : κ) (v : α)
    (l : List (κ × α)) :
    findVal k ((k', v) :: l) = if k' = k then some v else findVal k l := rfl

theorem findVal_setKey_self {κ α : Type} [DecidableEq κ] (k : κ) (v : α)
    (l : List (κ × α)) : findVal k (setKey k v l) = some v := by
  induction l with
  | nil => simp [setKey, findVal]
  | cons p rest ih =>
    obtain ⟨k', v'⟩ := p
    by_cases h : k' = k
    · simp [setKey, h, findVal]
    · simp [setKey, h, findVal, ih]

theorem findVal_setKey_ne {κ α : Type} [DecidableEq κ] {k k' : κ} (v : α)
    (l : List (κ × α)) (h : k' ≠ k) : findVal k (setKey k' v l) = findVal k l := by
  induction l with
  | nil => simp [setKey, findVal, h]
  | cons p rest ih =>
    obtain ⟨k₀, v₀⟩ := p
    by_cases h0 : k₀ = k'
    · subst h0
      simp [setKey, findVal, h, ih]
    · simp [setKey, h0, findVal, ih]

theorem findVal_eraseKey_self {κ α : Type} [DecidableEq κ] (k : κ)
    (l : List (κ × α)) : findVal k (eraseKey k l) = none := by
  induction l with
  | nil => rfl
  | cons p rest ih =>
    obtain ⟨k', v'⟩ := p
    by_cases h : k' = k
    · simpa [eraseKey, h] using ih
    · simpa [eraseKey, h, findVal] using ih

theorem findVal_eraseKey_ne {κ α : Type} [DecidableEq κ] {k k' : κ}
    (l : List (κ × α)) (h : k' ≠ k) : findVal k (eraseKey k' l) = findVal k l := by
  induction l with
  | nil => rfl
  | cons p rest ih =>
    obtain ⟨k₀, v₀⟩ := p
    by_cases h0 : k₀ = k'
    · subst h0
      have hk : k₀ ≠ k := h
      simp [eraseKey, findVal, hk, ih]
    · by_cases h1 : k₀ = k
      · subst h1
        simp [eraseKey, h0, findVal]
      · simp [eraseKey, h0, findVal, h1, ih]

theorem eraseKey_eraseKey {κ α : Type} [DecidableEq κ] (k : κ) (l : List (κ × α)) :
    eraseKey k (eraseKey k l) = eraseKey k l := by
  induction l with
  | nil => rfl
  | cons p rest ih =>
    obtain ⟨k', v'⟩ := p
    by_cases h : k' = k
    · simp [eraseKey, h, ih]
    · simp [eraseKey, h, ih]

/-- A membership bound for `setKey`: every entry of the updated map is the new
binding or an entry of the old map. -/
theorem mem_setKey {κ α : Type} [DecidableEq κ] {k : κ} {v : α} {l : List (κ × α)}
    {p : κ × α} (hp : p ∈ setKey k v l) : p = (k, v) ∨ p ∈ l := by
  induction l with
  | nil => simpa [setKey] using hp
  | cons q rest ih =>
    obtain ⟨k', v'⟩ := q
    by_cases h : k' = k
    · simp [setKey, h] at hp
      rcases hp with hp | hp
      · exact Or.inl hp
      · exact Or.inr (List.mem_cons_of_mem _ hp)
    · simp [setKey, h] at hp
      rcases hp with hp | hp
      · exact Or.inr (by simp [hp])
      · rcases ih hp with h1 | h1
        · exact Or.inl h1
        · exact Or.inr (List.mem_cons_of_mem _ h1)

theorem mem_eraseKey {κ α : Type} [DecidableEq κ] {k : κ} {l : List (κ × α)}
    {p : κ × α} (hp : p ∈ eraseKey k l) : p ∈ l := by
  induction l with
  | nil => simp [eraseKey] at hp
  | cons q rest ih =>
    obtain ⟨k', v'⟩ := q
    by_cases h : k' = k
    · simp [eraseKey, h] at hp
      exact List.mem_cons_of_mem _ (ih hp)
    · simp [eraseKey, h] at hp
      rcases hp with hp | hp
      · simp [hp]
      · exact List.mem_cons_of_mem _ (ih hp)

theorem findVal_mem {κ α : Type} [DecidableEq κ] {k : κ} {l : List (κ × α)} {v : α}
    (h : findVal k l = some v) : (k, v) ∈ l := by
  induction l with
  | nil => simp [findVal] at h
  | cons p rest ih =>
    obtain ⟨k', v'⟩ := p
    by_cases h0 : k' = k
    · subst h0
      simp [findVal] at h
      simp [h]
    · simp [findVal, h0] at h
      exact List.mem_cons_of_mem _ (ih h)

/-! ### Delta arithmetic -/

theorem addDelta_assoc (a b c : TrafficDelta) :
    addDelta (addDelta a b) c = addDelta a (addDelta b c) := by
  simp [addDelta, add_assoc]

theorem addDelta_comm (a b : TrafficDelta) : addDelta a b = addDelta b a := by
  simp [addDelta, add_comm]

theorem addDelta_left_comm (a b c : TrafficDelta) :
    addDelta a (addDelta b c) = addDelta b (addDelta a c) := by
  simp [addDelta, add_left_comm]

theorem addDelta_empty (a : TrafficDelta) : addDelta a createEmptyDelta = a := by
  simp [addDelta, createEmptyDelta]

theorem empty_addDelta (a : TrafficDelta) : addDelta createEmptyDelta a = a := by
  simp [addDelta, createEmptyDelta]

/-! ### Basic `runAgg` lemmas -/

theorem runAgg_nil (s : AggState) : runAgg [] s = s := rfl

theorem runAgg_cons (a : AggAction) (acts : List AggAction) (s : AggState) :
    runAgg (a :: acts) s = runAgg acts (aggStep a s) := rfl

theorem runAgg_append (l₁ l₂ : List AggAction) (s : AggState) :
    runAgg (l₁ ++ l₂) s = runAgg l₂ (runAgg l₁ s) :=
  List.foldl_append _ _ _ _

/-! ### `keySum` lemmas -/

theorem keySum_nil (j : String) : keySum j [] = createEmptyDelta := rfl

theorem keySum_cons (j k : String) (d : TrafficDelta) (l : List (String × TrafficDelta)) :
    keySum j ((k, d) :: l) = if k = j then addDelta d (keySum j l) else keySum j l := by
  by_cases h : k = j
  · simp [keySum, List.filter, h]
  · simp [keySum, List.filter, h]

theorem keySum_append (j : String) (l₁ l₂ : List (String × TrafficDelta)) :
    keySum j (l₁ ++ l₂) = addDelta (keySum j l₁) (keySum j l₂) := by
  induction l₁ with
  | nil => simp [keySum_nil, empty_addDelta]
  | cons p rest ih =>
    obtain ⟨k, d⟩ := p
    by_cases h : k = j
    · simp [keySum_cons, h, ih, addDelta_assoc]
    · simp [keySum_cons, h, ih]

theorem keySum_singleton_self (j : String) (d : TrafficDelta) :
    keySum j [(j, d)] = d := by
  simp [keySum_cons, keySum_nil, addDelta_empty]

theorem keySum_singleton_ne (j k : String) (d : TrafficDelta) (h : k ≠ j) :
    keySum j [(k, d)] = createEmptyDelta := by
  simp [keySum_cons, h, keySum_nil]

theorem keySum_of_not_mem (j : String) (l : List (String × TrafficDelta))
    (h : j ∉ l.map Prod.fst) : keySum j l = createEmptyDelta := by
  induction l with
  | nil => rfl
  | cons p rest ih =>
    obtain ⟨k, d⟩ := p
    rw [List.map_cons, List.mem_cons] at h
    push_neg at h
    rw [keySum_cons, if_neg (fun hk : k = j => h.1 hk.symm), ih h.2]

/-- On a map with unique keys, the sum for a job is its (unique) bucket. -/
theorem keySum_eq_findVal (j : String) (l : List (String × TrafficDelta))
    (h : (l.map Prod.fst).Nodup) :
    keySum j l = (findVal j l).getD createEmptyDelta := by
  induction l with
  | nil => rfl
  | cons p rest ih =>
    obtain ⟨k, d⟩ := p
    rw [List.map_cons, List.nodup_cons] at h
    rw [keySum_cons]
    by_cases hk : k = j
    · subst hk
      rw [keySum_of_not_mem k rest h.1]
      simp [findVal, addDelta_empty]
    · simp [findVal, hk, ih h.2]

/-! ### key-uniqueness (`Nodup`) preservation -/

theorem mem_keys_setKey {k a : String} {v : TrafficDelta}
    {l : List (String × TrafficDelta)}
    (h : a ∈ (setKey k v l).map Prod.fst) : a = k ∨ a ∈ l.map Prod.fst := by
  rcases List.mem_map.mp h with ⟨p, hp, hfst⟩
  rcases mem_setKey hp with h1 | h1
  · exact Or.inl (by rw [← hfst, h1])
  · exact Or.inr (List.mem_map.mpr ⟨p, h1, hfst⟩)

theorem nodup_keys_setKey (k : String) (v : TrafficDelta)
    (l : List (String × TrafficDelta)) (h : (l.map Prod.fst).Nodup) :
    ((setKey k v l).map Prod.fst).Nodup := by
  induction l with
  | nil => simp [setKey]
  | cons p rest ih =>
    obtain ⟨k', v'⟩ := p
    rw [List.map_cons, List.nodup_cons] at h
    by_cases hk : k' = k
    · subst hk
      rw [setKey, if_pos rfl, List.map_cons, List.nodup_cons]
      exact h
    · rw [setKey, if_neg hk, List.map_cons, List.nodup_cons]
      refine ⟨?_, ih h.2⟩
      intro hmem
      rcases mem_keys_setKey hmem with h1 | h1
      · exact hk h1
      · exact h.1 h1

theorem mem_keys_eraseKey {k a : String} {l : List (String × TrafficDelta)}
    (h : a ∈ (eraseKey k l).map Prod.fst) : a ∈ l.map Prod.fst := by
  rcases List.mem_map.mp h with ⟨p, hp, hfst⟩
  exact List.mem_map.mpr ⟨p, mem_eraseKey hp, hfst⟩

theorem nodup_keys_eraseKey (k : String) (l : List (String × TrafficDelta))
    (h : (l.map Prod.fst).Nodup) : ((eraseKey k l).map Prod.fst).Nodup := by
  induction l with
  | nil => simp [eraseKey]
  | cons p rest ih =>
    obtain ⟨k', v'⟩ := p
    rw [List.map_cons, List.nodup_cons] at h
    by_cases hk : k' = k
    · rw [eraseKey, if_pos hk]
      exact ih h.2
    · rw [eraseKey, if_neg hk, List.map_cons, List.nodup_cons]
      exact ⟨fun hmem => h.1 (mem_keys_eraseKey hmem), ih h.2⟩

/-! ### `takeFirst` lemmas -/

theorem takeFirst_keySum_self {j : String} {l : List (String × TrafficDelta)} :
    ∀ {rest : List (String × TrafficDelta)} {d : TrafficDelta},
      takeFirst j l = some (d, rest) → keySum j l = addDelta d (keySum j rest) := by
  induction l with
  | nil => intro rest d h; simp [takeFirst] at h
  | cons p tl ih =>
    intro rest d h
    obtain ⟨k, e⟩ := p
    by_cases hk : k = j
    · rw [takeFirst, if_pos hk] at h
      simp at h
      obtain ⟨h1, h2⟩ := h
      subst h1
      subst h2
      rw [keySum_cons, if_pos hk]
    · rw [takeFirst, if_neg hk] at h
      cases htf : takeFirst j tl with
      | none => rw [htf] at h; simp at h
      | some pr =>
        obtain ⟨d', r'⟩ := pr
        rw [htf] at h
        simp at h
        obtain ⟨h1, h2⟩ := h
        subst h1
        subst h2
        rw [keySum_cons, if_neg hk, keySum_cons, if_neg hk]
        exact ih htf

theorem takeFirst_keySum_ne {j k : String} {l : List (String × TrafficDelta)}
    (hk : k ≠ j) :
    ∀ {rest : List (String × TrafficDelta)} {d : TrafficDelta},
      takeFirst j l = some (d, rest) → keySum k l = keySum k rest := by
  induction l with
  | nil => intro rest d h; simp [takeFirst] at h
  | cons p tl ih =>
    intro rest d h
    obtain ⟨k', e⟩ := p
    by_cases hk' : k' = j
    · rw [takeFirst, if_pos hk'] at h
      simp at h
      obtain ⟨h1, h2⟩ := h
      subst h1
      subst h2
      rw [keySum_cons, if_neg (fun hh : k' = k => hk (hh ▸ hk'))]
    · rw [takeFirst, if_neg hk'] at h
      cases htf : takeFirst j tl with
      | none => rw [htf] at h; simp at h
      | some pr =>
        obtain ⟨d', r'⟩ := pr
        rw [htf] at h
        simp at h
        obtain ⟨h1, h2⟩ := h
        subst h1
        subst h2
        rw [keySum_cons, keySum_cons]
        by_cases h2 : k' = k
        · rw [if_pos h2, if_pos h2, ih htf]
        · rw [if_neg h2, if_neg h2, ih htf]

theorem takeFirst_mem_self {j : String} {l : List (String × TrafficDelta)} :
    ∀ {rest : List (String × TrafficDelta)} {d : TrafficDelta},
      takeFirst j l = some (d, rest) → (j, d) ∈ l := by
  induction l with
  | nil => intro rest d h; simp [takeFirst] at h
  | cons p tl ih =>
    intro rest d h
    obtain ⟨k, e⟩ := p
    by_cases hk : k = j
    · rw [takeFirst, if_pos hk] at h
      simp at h
      obtain ⟨h1, h2⟩ := h
      subst h1
      simp [hk]
    · rw [takeFirst, if_neg hk] at h
      cases htf : takeFirst j tl with
      | none => rw [htf] at h; simp at h
      | some pr =>
        obtain ⟨d', r'⟩ := pr
        rw [htf] at h
        simp at h
        obtain ⟨h1, h2⟩ := h
        subst h1
        exact List.mem_cons_of_mem _ (ih htf)

theorem takeFirst_mem_rest {j : String} {l : List (String × TrafficDelta)} :
    ∀ {rest : List (String × TrafficDelta)} {d : TrafficDelta}
      {p : String × TrafficDelta},
      takeFirst j l = some (d, rest) → p ∈ rest → p ∈ l := by
  induction l with
  | nil => intro rest d p h; simp [takeFirst] at h
  | cons q tl ih =>
    intro rest d p h hp
    obtain ⟨k, e⟩ := q
    by_cases hk : k = j
    · rw [takeFirst, if_pos hk] at h
      simp at h
      obtain ⟨h1, h2⟩ := h
      subst h2
      exact List.mem_cons_of_mem _ hp
    · rw [takeFirst, if_neg hk] at h
      cases htf : takeFirst j tl with
      | none => rw [htf] at h; simp at h
      | some pr =>
        obtain ⟨d', r'⟩ := pr
        rw [htf] at h
        simp at h
        obtain ⟨h1, h2⟩ := h
        subst h2
        rcases List.mem_cons.mp hp with h3 | h3
        · simp [h3]
        · exact List.mem_cons_of_mem _ (ih htf h3)

/-! ### The manager's inductive invariant -/

theorem pendingDelta_total_nonneg (j : String) (s : AggState)
    (hP : ∀ p ∈ s.pendingByJobId, 0 < p.2.totalBytes) :
    0 ≤ (pendingDelta j s).totalBytes := by
  unfold pendingDelta
  cases hfv : findVal j s.pendingByJobId with
  | none => simp [createEmptyDelta]
  | some v => exact le_of_lt (by simpa using hP _ (findVal_mem hfv))

theorem countsFor_false_of_skip {j : String} {m : RequestTrafficMetric}
    (hskip : m.jobId = "" ∨ m.totalBytes ≤ 0) : countsFor j m = false := by
  apply decide_eq_false
  rintro ⟨h1, h2, h3⟩
  rcases hskip with h4 | h4
  · exact h2 h4
  · omega

theorem aggStep_invariant (a : AggAction) (s : AggState) (R : String → TrafficDelta)
    (h : AggInvariant s R) :
    AggInvariant (aggStep a s) (fun j => addDelta (R j) (actContrib j a)) := by
  obtain ⟨hN, hP, hF, hE⟩ := h
  cases a with
  | record m =>
    by_cases hskip : m.jobId = "" ∨ m.totalBytes ≤ 0
    · have hstep : aggStep (AggAction.record m) s = s := by
        simp [aggStep, recordRequest, hskip]
      rw [hstep]
      refine ⟨hN, hP, hF, ?_⟩
      intro j
      simp [actContrib, countsFor_false_of_skip hskip, addDelta_empty, hE j]
    · push_neg at hskip
      obtain ⟨hjne, hpos⟩ := hskip
      have hstep : aggStep (AggAction.record m) s = { s with pendingByJobId := setKey m.jobId (addDelta ((findVal m.jobId s.pendingByJobId).getD createEmptyDelta) (metricContrib m)) s.pendingByJobId } := by
        simp [aggStep, recordRequest, hjne, not_le.mpr hpos]
      rw [hstep]
      refine ⟨nodup_keys_setKey _ _ _ hN, ?_, hF, ?_⟩
      · intro p hp
        rcases mem_setKey hp with h1 | h1
        · have hnn := pendingDelta_total_nonneg m.jobId s hP
          unfold pendingDelta at hnn
          subst h1
          simp only [addDelta, metricContrib]
          omega
        · exact hP p h1
      · intro j
        show accounted j _ = addDelta (R j) (actContrib j _)
        by_cases hj : m.jobId = j
        · subst hj
          have hact : actContrib m.jobId (AggAction.record m) = metricContrib m := by
            simp [actContrib, countsFor, hjne, hpos]
          rw [hact, ← hE m.jobId]
          simp only [accounted, pendingDelta, findVal_setKey_self, Option.getD_some]
          simp [addDelta_assoc, addDelta_comm, addDelta_left_comm]
        · have hact : actContrib j (AggAction.record m) = createEmptyDelta := by
            have : countsFor j m = false := by
              apply decide_eq_false
              rintro ⟨h1, _, _⟩
              exact hj h1
            simp [actContrib, this]
          rw [hact, ← hE j, addDelta_empty]
          simp only [accounted, pendingDelta, findVal_setKey_ne _ _ hj]
  | flushJobStart j0 =>
    cases hfv : findVal j0 s.pendingByJobId with
    | none =>
      have hstep : aggStep (AggAction.flushJobStart j0) s = s := by
        simp [aggStep, hfv]
      rw [hstep]
      refine ⟨hN, hP, hF, ?_⟩
      intro j
      simp [actContrib, addDelta_empty, hE j]
    | some d =>
      have hstep : aggStep (AggAction.flushJobStart j0) s = { s with pendingByJobId := eraseKey j0 s.pendingByJobId, inFlight := s.inFlight ++ [(j0, d)] } := by
        simp [aggStep, hfv]
      rw [hstep]
      refine ⟨nodup_keys_eraseKey _ _ hN, ?_, ?_, ?_⟩
      · intro p hp
        exact hP p (mem_eraseKey hp)
      · intro p hp
        rcases List.mem_append.mp hp with h1 | h1
        · exact hF p h1
        · simp at h1
          subst h1
          exact hP _ (findVal_mem hfv)
      · intro j
        show accounted j _ = addDelta (R j) (actContrib j _)
        have hact : actContrib j (AggAction.flushJobStart j0) = createEmptyDelta := by
          simp [actContrib]
        rw [hact, ← hE j, addDelta_empty]
        by_cases hj : j0 = j
        · subst hj
          simp only [accounted, pendingDelta, findVal_eraseKey_self, Option.getD_none,
            keySum_append, keySum_singleton_self, hfv, Option.getD_some]
          simp [addDelta_assoc, addDelta_comm, addDelta_left_comm, addDelta_empty,
            empty_addDelta]
        · simp only [accounted, pendingDelta, findVal_eraseKey_ne _ hj,
            keySum_append, keySum_singleton_ne _ _ _ hj, addDelta_empty]
  | flushAllStart =>
    by_cases hrun : s.flushRunning
    · have hstep : aggStep AggAction.flushAllStart s = s := by
        simp [aggStep, hrun]
      rw [hstep]
      refine ⟨hN, hP, hF, ?_⟩
      intro j
      simp [actContrib, addDelta_empty, hE j]
    · by_cases hemp : s.pendingByJobId.isEmpty
      · have hstep : aggStep AggAction.flushAllStart s = s := by
          simp [aggStep, hrun, hemp]
        rw [hstep]
        refine ⟨hN, hP, hF, ?_⟩
        intro j
        simp [actContrib, addDelta_empty, hE j]
      · have hstep : aggStep AggAction.flushAllStart s = { s with flushRunning := true, inFlight := s.inFlight ++ s.pendingByJobId, pendingByJobId := [] } := by
          simp [aggStep, hrun, hemp]
        rw [hstep]
        refine ⟨by simp, by simp, ?_, ?_⟩
        · intro p hp
          rcases List.mem_append.mp hp with h1 | h1
          · exact hF p h1
          · exact hP p h1
        · intro j
          show accounted j _ = addDelta (R j) (actContrib j _)
          have hact : actContrib j AggAction.flushAllStart = createEmptyDelta := by
            simp [actContrib]
          rw [hact, ← hE j, addDelta_empty]
          simp only [accounted, pendingDelta, findVal_nil, Option.getD_none,
            keySum_append]
          rw [keySum_eq_findVal j s.pendingByJobId hN]
          simp [addDelta_assoc, addDelta_comm, addDelta_left_comm, addDelta_empty,
            empty_addDelta]
  | persistStep j0 ok =>
    cases htf : takeFirst j0 s.inFlight with
    | none =>
      have hstep : aggStep (AggAction.persistStep j0 ok) s = s := by
        simp [aggStep, htf]
      rw [hstep]
      refine ⟨hN, hP, hF, ?_⟩
      intro j
      simp [actContrib, addDelta_empty, hE j]
    | some pr =>
      obtain ⟨d, rest⟩ := pr
      have hdpos : 0 < d.totalBytes := hF _ (takeFirst_mem_self htf)
      have hnle : ¬ d.totalBytes ≤ 0 := not_le.mpr hdpos
      cases ok with
      | true =>
        have hstep : aggStep (AggAction.persistStep j0 true) s = { s with inFlight := rest, writes := s.writes ++ [(j0, d)] } := by
          simp [aggStep, htf, hnle]
        rw [hstep]
        refine ⟨hN, hP, ?_, ?_⟩
        · intro p hp
          exact hF p (takeFirst_mem_rest htf hp)
        · intro j
          show accounted j _ = addDelta (R j) (actContrib j _)
          have hact : actContrib j (AggAction.persistStep j0 true) = createEmptyDelta := by
            simp [actContrib]
          rw [hact, ← hE j, addDelta_empty]
          by_cases hj : j0 = j
          · subst hj
            simp only [accounted, pendingDelta, keySum_append, keySum_singleton_self,
              takeFirst_keySum_self htf]
            simp [addDelta_assoc, addDelta_comm, addDelta_left_comm, addDelta_empty,
              empty_addDelta]
          · simp only [accounted, pendingDelta, keySum_append,
              keySum_singleton_ne _ _ _ hj,
              takeFirst_keySum_ne (fun hh : j = j0 => hj hh.symm) htf, addDelta_empty]
      | false =>
        have hstep : aggStep (AggAction.persistStep j0 false) s = { s with inFlight := rest, pendingByJobId := mergeBack j0 d s.pendingByJobId } := by
          simp [aggStep, htf, hnle]
        rw [hstep]
        refine ⟨nodup_keys_setKey _ _ _ hN, ?_, ?_, ?_⟩
        · intro p hp
          rcases mem_setKey hp with h1 | h1
          · have hnn := pendingDelta_total_nonneg j0 s hP
            unfold pendingDelta at hnn
            subst h1
            simp only [addDelta]
            omega
          · exact hP p h1
        · intro p hp
          exact hF p (takeFirst_mem_rest htf hp)
        · intro j
          show accounted j _ = addDelta (R j) (actContrib j _)
          have hact : actContrib j (AggAction.persistStep j0 false) = createEmptyDelta := by
            simp [actContrib]
          rw [hact, ← hE j, addDelta_empty]
          by_cases hj : j0 = j
          · subst hj
            simp only [accounted, pendingDelta, mergeBack, findVal_setKey_self,
              Option.getD_some, takeFirst_keySum_self htf]
            simp [addDelta_assoc, addDelta_comm, addDelta_left_comm, addDelta_empty,
              empty_addDelta]
          · simp only [accounted, pendingDelta, mergeBack, findVal_setKey_ne _ _ hj,
              takeFirst_keySum_ne (fun hh : j = j0 => hj hh.symm) htf]
  | flushAllEnd =>
    refine ⟨hN, hP, hF, ?_⟩
    intro j
    show accounted j _ = addDelta (R j) (actContrib j _)
    have hact : actContrib j AggAction.flushAllEnd = createEmptyDelta := by
      simp [actContrib]
    rw [hact, addDelta_empty, ← hE j]
    rfl

theorem recordedSum_nil (j : String) : recordedSum j [] = createEmptyDelta := rfl

theorem recordedSum_cons (j : String) (a : AggAction) (acts : List AggAction) :
    recordedSum j (a :: acts) = addDelta (actContrib j a) (recordedSum j acts) := rfl

theorem runAgg_invariant_from (acts : List AggAction) :
    ∀ (s : AggState) (R : String → TrafficDelta), AggInvariant s R →
    AggInvariant (runAgg acts s) (fun j => addDelta (R j) (recordedSum j acts)) := by
  induction acts with
  | nil =>
    intro s R h
    refine ⟨h.1, h.2.1, h.2.2.1, fun j => ?_⟩
    show accounted j s = addDelta (R j) (recordedSum j [])
    rw [recordedSum_nil, addDelta_empty]
    exact h.2.2.2 j
  | cons a acts ih =>
    intro s R h
    have h2 := ih (aggStep a s) _ (aggStep_invariant a s R h)
    refine ⟨h2.1, h2.2.1, h2.2.2.1, fun j => ?_⟩
    show accounted j (runAgg acts (aggStep a s)) = addDelta (R j) (recordedSum j (a :: acts))
    rw [recordedSum_cons, ← addDelta_assoc]
    exact h2.2.2.2 j

theorem initAgg_invariant : AggInvariant initAgg (fun _ => createEmptyDelta) := by
  refine ⟨by simp [initAgg], by simp [initAgg], by simp [initAgg], fun j => ?_⟩
  simp [accounted, pendingDelta, initAgg, keySum_nil, addDelta_empty, findVal_nil]

theorem runAgg_invariant (acts : List AggAction) :
    AggInvariant (runAgg acts initAgg) (fun j => recordedSum j acts) := by
  have h := runAgg_invariant_from acts initAgg _ initAgg_invariant
  refine ⟨h.1, h.2.1, h.2.2.1, fun j => ?_⟩
  show accounted j (runAgg acts initAgg) = recordedSum j acts
  have h4 : accounted j (runAgg acts initAgg) =
      addDelta createEmptyDelta (recordedSum j acts) := h.2.2.2 j
  rwa [empty_addDelta] at h4

/-- A record-only trace never touches the in-flight snapshot, the write log or
the flush flag. -/
theorem records_keep (ms : List RequestTrafficMetric) :
    ∀ s : AggState,
      (runAgg (ms.map AggAction.record) s).inFlight = s.inFlight ∧
      (runAgg (ms.map AggAction.record) s).writes = s.writes ∧
      (runAgg (ms.map AggAction.record) s).flushRunning = s.flushRunning := by
  induction ms with
  | nil => intro s; exact ⟨rfl, rfl, rfl⟩
  | cons m ms ih =>
    intro s
    have hstep : (aggStep (AggAction.record m) s).inFlight = s.inFlight ∧
        (aggStep (AggAction.record m) s).writes = s.writes ∧
        (aggStep (AggAction.record m) s).flushRunning = s.flushRunning := by
      by_cases hskip : m.jobId = "" ∨ m.totalBytes ≤ 0
      · simp [aggStep, recordRequest, hskip]
      · simp [aggStep, recordRequest, hskip]
    have := ih (aggStep (AggAction.record m) s)
    rw [List.map_cons, runAgg_cons]
    exact ⟨this.1.trans hstep.1, this.2.1.trans hstep.2.1, this.2.2.trans hstep.2.2⟩

theorem recordedSum_map_record (j : String) (ms : List RequestTrafficMetric) :
    recordedSum j (ms.map AggAction.record) =
      { totalBytes := ((ms.filter (countsFor j)).map RequestTrafficMetric.totalBytes).sum
        requestBytes := ((ms.filter (countsFor j)).map RequestTrafficMetric.requestBytes).sum
        responseBytes := ((ms.filter (countsFor j)).map RequestTrafficMetric.responseBytes).sum
        requestCount := ((ms.filter (countsFor j)).length : Int) } := by
  induction ms with
  | nil => simp [recordedSum_nil, createEmptyDelta]
  | cons m ms ih =>
    rw [List.map_cons, recordedSum_cons, ih]
    by_cases hc : countsFor j m
    · have hcontrib : actContrib j (AggAction.record m) = metricContrib m := by
        simp [actContrib, hc]
      rw [hcontrib, List.filter_cons, if_pos hc]
      simp only [List.map_cons, List.sum_cons, List.length_cons, addDelta, metricContrib]
      simp only [TrafficDelta.mk.injEq]
      refine ⟨trivial, trivial, trivial, ?_⟩
      push_cast
      ring
    · simp only [actContrib, hc]
      rw [if_neg (by simp [hc]), List.filter_cons, if_neg (by simp [hc]), empty_addDelta]

/-! ### Record-only traces and `jobSum` -/

theorem jobSum_nil (j : String) : jobSum j [] = createEmptyDelta := rfl

theorem jobSum_cons (j : String) (m : RequestTrafficMetric)
    (ms : List RequestTrafficMetric) :
    jobSum j (m :: ms) =
      if countsFor j m then addDelta (metricContrib m) (jobSum j ms)
      else jobSum j ms := by
  by_cases hc : countsFor j m
  · simp [jobSum, List.filter_cons, hc]
  · simp [jobSum, List.filter_cons, hc]

theorem jobSum_total_nonneg (j : String) (ms : List RequestTrafficMetric) :
    0 ≤ (jobSum j ms).totalBytes := by
  induction ms with
  | nil => simp [jobSum_nil, createEmptyDelta]
  | cons m ms ih =>
    rw [jobSum_cons]
    by_cases hc : countsFor j m
    · rw [if_pos hc]
      have hpos : 0 < m.totalBytes := (of_decide_eq_true hc).2.2
      simp only [addDelta, metricContrib]
      omega
    · rw [if_neg hc]
      exact ih

theorem record_run_pending (ms : List RequestTrafficMetric) :
    ∀ (s : AggState) (j : String) (v : TrafficDelta),
      findVal j s.pendingByJobId = some v →
      findVal j (runAgg (ms.map AggAction.record) s).pendingByJobId =
        some (addDelta v (jobSum j ms)) := by
  induction ms with
  | nil =>
    intro s j v h
    rw [jobSum_nil, addDelta_empty]
    exact h
  | cons m ms ih =>
    intro s j v h
    rw [List.map_cons, runAgg_cons]
    by_cases hskip : m.jobId = "" ∨ m.totalBytes ≤ 0
    · have hstep : aggStep (AggAction.record m) s = s := by
        simp [aggStep, recordRequest, hskip]
      rw [hstep, jobSum_cons, if_neg (by rw [countsFor_false_of_skip hskip]; exact Bool.false_ne_true)]
      exact ih s j v h
    · push_neg at hskip
      obtain ⟨hjne, hpos⟩ := hskip
      have hstep : aggStep (AggAction.record m) s = { s with pendingByJobId := setKey m.jobId (addDelta ((findVal m.jobId s.pendingByJobId).getD createEmptyDelta) (metricContrib m)) s.pendingByJobId } := by
        simp [aggStep, recordRequest, hjne, not_le.mpr hpos]
      rw [hstep]
      by_cases hj : m.jobId = j
      · subst hj
        rw [h] at hstep
        have hcount : countsFor m.jobId m = true := by
          simp [countsFor, hjne, hpos]
        rw [jobSum_cons, if_pos hcount, ← addDelta_assoc]
        have h2 : findVal m.jobId
            (setKey m.jobId (addDelta ((findVal m.jobId s.pendingByJobId).getD createEmptyDelta) (metricContrib m)) s.pendingByJobId) =
            some (addDelta v (metricContrib m)) := by
          rw [findVal_setKey_self, h]
          rfl
        exact ih _ m.jobId _ h2
      · have hcount : countsFor j m = false := by
          apply decide_eq_false
          rintro ⟨h1, _, _⟩
          exact hj h1
        rw [jobSum_cons, if_neg (by rw [hcount]; exact Bool.false_ne_true)]
        have h2 : findVal j
            (setKey m.jobId (addDelta ((findVal m.jobId s.pendingByJobId).getD createEmptyDelta) (metricContrib m)) s.pendingByJobId) = some v := by
          rw [findVal_setKey_ne _ _ hj, h]
        exact ih _ j v h2

/-! ### `filter` / `takeFirst` bridges used by the retry theorem -/

theorem filter_takeFirst {j : String} {d : TrafficDelta} :
    ∀ {l : List (String × TrafficDelta)},
      l.filter (fun p => decide (p.1 = j)) = [(j, d)] →
      ∃ rest, takeFirst j l = some (d, rest) ∧
        rest.filter (fun p => decide (p.1 = j)) = [] := by
  intro l
  induction l with
  | nil => intro h; simp at h
  | cons p tl ih =>
    intro h
    obtain ⟨k, e⟩ := p
    by_cases hk : k = j
    · rw [List.filter_cons, if_pos (by simp [hk])] at h
      simp only [List.cons.injEq, Prod.mk.injEq] at h
      obtain ⟨⟨_, hd⟩, htl⟩ := h
      subst hd
      refine ⟨tl, ?_, htl⟩
      rw [takeFirst, if_pos hk]
    · rw [List.filter_cons, if_neg (by simp [hk])] at h
      obtain ⟨rest, htf, hrest⟩ := ih h
      refine ⟨(k, e) :: rest, ?_, ?_⟩
      · rw [takeFirst, if_neg hk, htf]
        rfl
      · rw [List.filter_cons, if_neg (by simp [hk]), hrest]

theorem takeFirst_append_of_filter_nil {j : String} {d : TrafficDelta} :
    ∀ {l : List (String × TrafficDelta)},
      l.filter (fun p => decide (p.1 = j)) = [] →
      takeFirst j (l ++ [(j, d)]) = some (d, l) := by
  intro l
  induction l with
  | nil => intro h; simp [takeFirst]
  | cons p tl ih =>
    intro h
    obtain ⟨k, e⟩ := p
    by_cases hk : k = j
    · rw [List.filter_cons, if_pos (by simp [hk])] at h
      simp at h
    · rw [List.filter_cons, if_neg (by simp [hk])] at h
      rw [List.cons_append, takeFirst, if_neg hk, ih h]
      rfl

/-! ### Non-negativity preservation (under non-negative inputs) -/

theorem aggStep_nonneg (a : AggAction) (s : AggState)
    (ha : ∀ m, a = AggAction.record m → 0 ≤ m.requestBytes ∧ 0 ≤ m.responseBytes)
    (hP : ∀ p ∈ s.pendingByJobId, nonnegDelta p.2)
    (hF : ∀ p ∈ s.inFlight, nonnegDelta p.2) :
    (∀ p ∈ (aggStep a s).pendingByJobId, nonnegDelta p.2) ∧
    (∀ p ∈ (aggStep a s).inFlight, nonnegDelta p.2) := by
  have hcur : ∀ j, nonnegDelta ((findVal j s.pendingByJobId).getD createEmptyDelta) := by
    intro j
    cases hfv : findVal j s.pendingByJobId with
    | none => simp [nonnegDelta, createEmptyDelta]
    | some v => exact hP _ (findVal_mem hfv)
  cases a with
  | record m =>
    by_cases hskip : m.jobId = "" ∨ m.totalBytes ≤ 0
    · have hstep : aggStep (AggAction.record m) s = s := by
        simp [aggStep, recordRequest, hskip]
      rw [hstep]
      exact ⟨hP, hF⟩
    · push_neg at hskip
      obtain ⟨hjne, hpos⟩ := hskip
      have hstep : aggStep (AggAction.record m) s = { s with pendingByJobId := setKey m.jobId (addDelta ((findVal m.jobId s.pendingByJobId).getD createEmptyDelta) (metricContrib m)) s.pendingByJobId } := by
        simp [aggStep, recordRequest, hjne, not_le.mpr hpos]
      rw [hstep]
      refine ⟨?_, hF⟩
      intro p hp
      rcases mem_setKey hp with h1 | h1
      · have hm := ha m rfl
        have hc := hcur m.jobId
        subst h1
        simp only [nonnegDelta, addDelta, metricContrib] at *
        omega
      · exact hP p h1
  | flushJobStart j0 =>
    cases hfv : findVal j0 s.pendingByJobId with
    | none =>
      have hstep : aggStep (AggAction.flushJobStart j0) s = s := by
        simp [aggStep, hfv]
      rw [hstep]
      exact ⟨hP, hF⟩
    | some d =>
      have hstep : aggStep (AggAction.flushJobStart j0) s = { s with pendingByJobId := eraseKey j0 s.pendingByJobId, inFlight := s.inFlight ++ [(j0, d)] } := by
        simp [aggStep, hfv]
      rw [hstep]
      refine ⟨fun p hp => hP p (mem_eraseKey hp), ?_⟩
      intro p hp
      rcases List.mem_append.mp hp with h1 | h1
      · exact hF p h1
      · simp at h1
        subst h1
        exact hP _ (findVal_mem hfv)
  | flushAllStart =>
    by_cases hrun : s.flushRunning
    · have hstep : aggStep AggAction.flushAllStart s = s := by
        simp [aggStep, hrun]
      rw [hstep]
      exact ⟨hP, hF⟩
    · by_cases hemp : s.pendingByJobId.isEmpty
      · have hstep : aggStep AggAction.flushAllStart s = s := by
          simp [aggStep, hrun, hemp]
        rw [hstep]
        exact ⟨hP, hF⟩
      · have hstep : aggStep AggAction.flushAllStart s = { s with flushRunning := true, inFlight := s.inFlight ++ s.pendingByJobId, pendingByJobId := [] } := by
          simp [aggStep, hrun, hemp]
        rw [hstep]
        refine ⟨by simp, ?_⟩
        intro p hp
        rcases List.mem_append.mp hp with h1 | h1
        · exact hF p h1
        · exact hP p h1
  | persistStep j0 ok =>
    cases htf : takeFirst j0 s.inFlight with
    | none =>
      have hstep : aggStep (AggAction.persistStep j0 ok) s = s := by
        simp [aggStep, htf]
      rw [hstep]
      exact ⟨hP, hF⟩
    | some pr =>
      obtain ⟨d, rest⟩ := pr
      have hd : nonnegDelta d := hF _ (takeFirst_mem_self htf)
      have hrest : ∀ p ∈ rest, nonnegDelta p.2 :=
        fun p hp => hF p (takeFirst_mem_rest htf hp)
      by_cases hle : d.totalBytes ≤ 0
      · have hstep : aggStep (AggAction.persistStep j0 ok) s = { s with inFlight := rest } := by
          simp [aggStep, htf, hle]
        rw [hstep]
        exact ⟨hP, hrest⟩
      · cases ok with
        | true =>
          have hstep : aggStep (AggAction.persistStep j0 true) s = { s with inFlight := rest, writes := s.writes ++ [(j0, d)] } := by
            simp [aggStep, htf, hle]
          rw [hstep]
          exact ⟨hP, hrest⟩
        | false =>
          have hstep : aggStep (AggAction.persistStep j0 false) s = { s with inFlight := rest, pendingByJobId := mergeBack j0 d s.pendingByJobId } := by
            simp [aggStep, htf, hle]
          rw [hstep]
          refine ⟨?_, hrest⟩
          intro p hp
          rcases mem_setKey hp with h1 | h1
          · have hc := hcur j0
            subst h1
            simp only [nonnegDelta, addDelta] at *
            omega
          · exact hP p h1
  | flushAllEnd =>
    exact ⟨hP, hF⟩

theorem runAgg_nonneg (acts : List AggAction) :
    ∀ s : AggState,
      (∀ m, AggAction.record m ∈ acts → 0 ≤ m.requestBytes ∧ 0 ≤ m.responseBytes) →
      (∀ p ∈ s.pendingByJobId, nonnegDelta p.2) →
      (∀ p ∈ s.inFlight, nonnegDelta p.2) →
      (∀ p ∈ (runAgg acts s).pendingByJobId, nonnegDelta p.2) ∧
      (∀ p ∈ (runAgg acts s).inFlight, nonnegDelta p.2) := by
  induction acts with
  | nil => intro s _ hP hF; exact ⟨hP, hF⟩
  | cons a acts ih =>
    intro s ha hP hF
    have hstep := aggStep_nonneg a s
      (fun m hm => ha m (by rw [hm]; exact List.mem_cons_self _ _)) hP hF
    exact ih (aggStep a s) (fun m hm => ha m (List.mem_cons_of_mem _ hm))
      hstep.1 hstep.2

/-! ### Claim theorems for the aggregator -/

/-- Claim C1: for any sequence of `recordRequest` calls across multiple jobs,
each job's pending `TrafficDelta` equals the exact componentwise sum of the
`totalBytes` / `requestBytes` / `responseBytes` of that job's metrics whose
`jobId` is present and whose `totalBytes` is strictly positive, with
`requestCount` equal to the number of such metrics; metrics with an absent
`jobId` or `totalBytes <= 0` contribute nothing. -/
theorem C1_recordRequest_aggregation (ms : List RequestTrafficMetric) (j : String) :
    pendingDelta j (runAgg (ms.map AggAction.record) initAgg) =
      { totalBytes := ((ms.filter (countsFor j)).map RequestTrafficMetric.totalBytes).sum
        requestBytes := ((ms.filter (countsFor j)).map RequestTrafficMetric.requestBytes).sum
        responseBytes := ((ms.filter (countsFor j)).map RequestTrafficMetric.responseBytes).sum
        requestCount := ((ms.filter (countsFor j)).length : Int) } := by
  have hk := records_keep ms initAgg
  have hacc : accounted j (runAgg (ms.map AggAction.record) initAgg) =
      recordedSum j (ms.map AggAction.record) :=
    (runAgg_invariant (ms.map AggAction.record)).2.2.2 j
  unfold accounted at hacc
  rw [hk.1, hk.2.1] at hacc
  have hIF : keySum j initAgg.inFlight = createEmptyDelta := rfl
  have hW : keySum j initAgg.writes = createEmptyDelta := rfl
  rw [hIF, hW, addDelta_empty, addDelta_empty, recordedSum_map_record] at hacc
  exact hacc

/-- Claim C3: a flush never loses a delta recorded concurrently with the flush
(recording during a flush mutates the live pending map, never the drained
snapshot or the write log) and never persists again a delta already drained
by an earlier flush (job-wise, pending + in-flight + persisted always equals
exactly what was recorded); a `flushAll` that starts while another flush
cycle is still running is a no-op. -/
theorem C3_flush_atomicity :
    (∀ s : AggState, aggStep AggAction.flushAllStart { s with flushRunning := true } =
      { s with flushRunning := true }) ∧
    (∀ (m : RequestTrafficMetric) (s : AggState),
      (aggStep (AggAction.record m) s).inFlight = s.inFlight ∧
      (aggStep (AggAction.record m) s).writes = s.writes) ∧
    (∀ (acts : List AggAction) (j : String),
      accounted j (runAgg acts initAgg) = recordedSum j acts) := by
  refine ⟨?_, ?_, ?_⟩
  · intro s
    simp [aggStep]
  · intro m s
    by_cases hskip : m.jobId = "" ∨ m.totalBytes ≤ 0 <;>
      simp [aggStep, recordRequest, hskip]
  · intro acts j
    exact (runAgg_invariant acts).2.2.2 j

/-- Claim C6, counterexample: the aggregator filters only on `totalBytes <= 0`,
so a metric with positive `totalBytes` but negative `requestBytes` drives a
pending bucket's `requestBytes` negative — the claimed invariant "all four
fields non-negative for every sequence of metric inputs" fails on the code. -/
theorem C6_counterexample :
    ¬ nonnegDelta (pendingDelta "job"
      (runAgg [AggAction.record
        { id := { session := "s", requestId := "r", hop := 0 }, jobId := "job"
          engine := RequestEngine.playwright, url := "u", method := "GET"
          status := none, startTime := 0, endTime := none, failed := none
          fromCache := none, requestBytes := -1, responseBytes := 2
          totalBytes := 1 }] initAgg)) := by
  decide

/-- Claim C6, amended: provided every recorded metric has non-negative
`requestBytes` and `responseBytes`, all four fields of every job's pending
`TrafficDelta` are non-negative after any sequence of aggregator actions
(`recordRequest`, `flushJob`, `flushAll`, persistence completion with the
failure merge-back). -/
theorem C6_pending_nonneg (acts : List AggAction)
    (h : ∀ m, AggAction.record m ∈ acts →
      0 ≤ m.requestBytes ∧ 0 ≤ m.responseBytes) (j : String) :
    nonnegDelta (pendingDelta j (runAgg acts initAgg)) := by
  have h2 := runAgg_nonneg acts initAgg h (by simp [initAgg]) (by simp [initAgg])
  unfold pendingDelta
  cases hfv : findVal j (runAgg acts initAgg).pendingByJobId with
  | none => simp [nonnegDelta, createEmptyDelta]
  | some v => exact h2.1 _ (findVal_mem hfv)

/-- Witness for C6 (amended): a concrete single-record trace with non-negative
byte counters yields a non-negative pending delta. -/
theorem C6_pending_nonneg_witness :
    nonnegDelta (pendingDelta "job"
      (runAgg [AggAction.record
        { id := { session := "s", requestId := "r", hop := 0 }, jobId := "job"
          engine := RequestEngine.playwright, url := "u", method := "GET"
          status := none, startTime := 0, endTime := none, failed := none
          fromCache := none, requestBytes := 3, responseBytes := 2
          totalBytes := 5 }] initAgg)) := by
  apply C6_pending_nonneg
  intro m hm
  simp only [List.mem_singleton, AggAction.record.injEq] at hm
  subst hm
  decide

/-- Helper: from a state whose pending map holds `V` for job `j` and whose
in-flight list has no deltas for `j`, a `flushJob j` followed by a successful
persist appends exactly `(j, V)` to the write log. -/
theorem flush_then_persist_writes (s2 : AggState) (j : String) (V : TrafficDelta)
    (hfv : findVal j s2.pendingByJobId = some V)
    (hVpos : ¬ V.totalBytes ≤ 0)
    (hfil : s2.inFlight.filter (fun p => decide (p.1 = j)) = []) :
    (aggStep (AggAction.persistStep j true)
      (aggStep (AggAction.flushJobStart j) s2)).writes = s2.writes ++ [(j, V)] := by
  have hs3 : aggStep (AggAction.flushJobStart j) s2 =
      { s2 with pendingByJobId := eraseKey j s2.pendingByJobId
                inFlight := s2.inFlight ++ [(j, V)] } := by
    simp [aggStep, hfv]
  rw [hs3]
  have htf2 : takeFirst j (s2.inFlight ++ [(j, V)]) = some (V, s2.inFlight) :=
    takeFirst_append_of_filter_nil hfil
  simp [aggStep, htf2, hVpos]

/-- Claim C2: if persisting job `j`'s in-flight delta `d` fails, `d` is merged
back into `j`'s pending bucket by componentwise addition to whatever has
accumulated for `j` (not overwritten); and after any further records a
subsequent successful flush for `j` persists a delta of at least `d`'s
`totalBytes`. -/
theorem C2_merge_back_retry (s : AggState) (j : String) (d : TrafficDelta)
    (ms : List RequestTrafficMetric)
    (hin : s.inFlight.filter (fun p => decide (p.1 = j)) = [(j, d)])
    (hd : 0 < d.totalBytes)
    (hpd : 0 ≤ (pendingDelta j s).totalBytes) :
    pendingDelta j (aggStep (AggAction.persistStep j false) s) =
      addDelta (pendingDelta j s) d ∧
    ∃ w, (aggStep (AggAction.persistStep j true)
            (aggStep (AggAction.flushJobStart j)
              (runAgg (ms.map AggAction.record)
                (aggStep (AggAction.persistStep j false) s)))).writes
          = s.writes ++ [(j, w)] ∧ d.totalBytes ≤ w.totalBytes := by
  obtain ⟨rest, htf, hrest⟩ := filter_takeFirst hin
  have hnle : ¬ d.totalBytes ≤ 0 := not_le.mpr hd
  have hs1 : aggStep (AggAction.persistStep j false) s =
      { s with inFlight := rest
               pendingByJobId := mergeBack j d s.pendingByJobId } := by
    simp [aggStep, htf, hnle]
  have hpd1 : findVal j (mergeBack j d s.pendingByJobId) =
      some (addDelta (pendingDelta j s) d) := by
    rw [mergeBack, findVal_setKey_self]
    rfl
  constructor
  · rw [hs1]
    show (findVal j (mergeBack j d s.pendingByJobId)).getD createEmptyDelta =
      addDelta (pendingDelta j s) d
    rw [hpd1]
    rfl
  · rw [hs1]
    have hfv2 := record_run_pending ms
      { s with inFlight := rest, pendingByJobId := mergeBack j d s.pendingByJobId }
      j (addDelta (pendingDelta j s) d) hpd1
    have hkeep := records_keep ms
      { s with inFlight := rest, pendingByJobId := mergeBack j d s.pendingByJobId }
    have hV2 : ¬ (addDelta (addDelta (pendingDelta j s) d) (jobSum j ms)).totalBytes ≤ 0 := by
      have hjs := jobSum_total_nonneg j ms
      simp only [addDelta]
      omega
    have hfil : (runAgg (ms.map AggAction.record)
        { s with inFlight := rest
                 pendingByJobId := mergeBack j d s.pendingByJobId }).inFlight.filter
        (fun p => decide (p.1 = j)) = [] := by
      rw [hkeep.1]
      exact hrest
    have hmain := flush_then_persist_writes
      (runAgg (ms.map AggAction.record)
        { s with inFlight := rest, pendingByJobId := mergeBack j d s.pendingByJobId })
      j (addDelta (addDelta (pendingDelta j s) d) (jobSum j ms)) hfv2 hV2 hfil
    refine ⟨addDelta (addDelta (pendingDelta j s) d) (jobSum j ms), ?_, ?_⟩
    · rw [hmain, hkeep.2.1]
    · have hjs := jobSum_total_nonneg j ms
      simp only [addDelta]
      omega

/-- Witness for C2: the retry property instantiated at a concrete state with
one failed in-flight delta for job `"a"` and no records in between. -/
theorem C2_merge_back_retry_witness :
    pendingDelta "a" (aggStep (AggAction.persistStep "a" false) c2State) =
      addDelta (pendingDelta "a" c2State) c2Delta ∧
    ∃ w, (aggStep (AggAction.persistStep "a" true)
            (aggStep (AggAction.flushJobStart "a")
              (runAgg (([] : List RequestTrafficMetric).map AggAction.record)
                (aggStep (AggAction.persistStep "a" false) c2State)))).writes
          = c2State.writes ++ [("a", w)] ∧ c2Delta.totalBytes ≤ w.totalBytes :=
  C2_merge_back_retry c2State "a" c2Delta [] (by decide) (by decide) (by decide)

/-! ### Claim theorems for the exception-facing flush operations -/

theorem persistE_isOk (outcome : Except String Unit) (j : String) (d : TrafficDelta)
    (s : AggState) : ∃ s', persistE outcome j d s = Except.ok s' := by
  unfold persistE
  by_cases h : d.totalBytes ≤ 0
  · exact ⟨s, by rw [if_pos h]⟩
  · cases outcome with
    | ok u => exact ⟨_, by rw [if_neg h]⟩
    | error e => exact ⟨_, by rw [if_neg h]⟩

theorem foldlM_persistE_isOk (oracle : String → TrafficDelta → Except String Unit)
    (l : List (String × TrafficDelta)) :
    ∀ s : AggState, ∃ s',
      l.foldlM (fun acc p => persistE (oracle p.1 p.2) p.1 p.2 acc) s =
        Except.ok s' := by
  induction l with
  | nil => intro s; exact ⟨s, rfl⟩
  | cons p tl ih =>
    intro s
    obtain ⟨s1, h1⟩ := persistE_isOk (oracle p.1 p.2) p.1 p.2 s
    obtain ⟨s2, h2⟩ := ih s1
    refine ⟨s2, ?_⟩
    rw [List.foldlM_cons, h1]
    simpa using h2

/-- Claim C9: a persistence failure is never propagated to the caller of
`flushAll` or `flushJob` — for every behavior of the persistence collaborator
(including throwing) both operations return `.ok` — and a delta whose
`totalBytes <= 0` is skipped by `persist` (state unchanged, nothing written)
rather than written. -/
theorem C9_flush_never_throws :
    (∀ (oracle : String → TrafficDelta → Except String Unit) (j : String)
      (s : AggState), ∃ s', flushJobE oracle j s = Except.ok s') ∧
    (∀ (oracle : String → TrafficDelta → Except String Unit) (s : AggState),
      ∃ s', flushAllE oracle s = Except.ok s') ∧
    (∀ (outcome : Except String Unit) (j : String) (d : TrafficDelta) (s : AggState),
      d.totalBytes ≤ 0 → persistE outcome j d s = Except.ok s) := by
  refine ⟨?_, ?_, ?_⟩
  · intro oracle j s
    unfold flushJobE
    cases hfv : findVal j s.pendingByJobId with
    | none => exact ⟨s, rfl⟩
    | some d => exact persistE_isOk _ _ _ _
  · intro oracle s
    unfold flushAllE
    by_cases h1 : s.flushRunning
    · exact ⟨s, by rw [if_pos h1]⟩
    · by_cases h2 : s.pendingByJobId.isEmpty
      · exact ⟨s, by rw [if_neg h1, if_pos h2]⟩
      · obtain ⟨s', hfold⟩ := foldlM_persistE_isOk oracle s.pendingByJobId
          { s with flushRunning := true, pendingByJobId := ([] : List (String × TrafficDelta)) }
        refine ⟨{ s' with flushRunning := false }, ?_⟩
        rw [if_neg h1, if_neg h2]
        simp only [hfold]
  · intro outcome j d s h
    unfold persistE
    rw [if_pos h]

/-- Witness for C9: a throwing collaborator on a skipped (non-positive) delta
is absorbed and leaves the state unchanged. -/
theorem C9_flush_never_throws_witness :
    persistE (Except.error "boom") "a" createEmptyDelta initAgg =
      Except.ok initAgg :=
  C9_flush_never_throws.2.2 (Except.error "boom") "a" createEmptyDelta initAgg
    (by decide)

/-! ### Claim theorem for the tracker-attachment guard -/

/-- Claim C10: `getOrCreateBandwidthTracker` resolves to "no tracker" (not an
error) whenever the page handle is absent, even for the supported CDP-capable
engines; only a present page with a playwright/puppeteer engine proceeds to
the memoised lookup and attachment. -/
theorem C10_absent_page_no_tracker :
    (∀ e : ConfigurableEngineType,
      getOrCreateBandwidthTracker false e = TrackerAttachOutcome.noTracker) ∧
    (∀ e : ConfigurableEngineType,
      getOrCreateBandwidthTracker true e = TrackerAttachOutcome.proceed ↔
        (e = ConfigurableEngineType.playwright ∨
         e = ConfigurableEngineType.puppeteer)) := by
  constructor
  · intro e
    simp [getOrCreateBandwidthTracker]
  · intro e
    cases e <;> simp [getOrCreateBandwidthTracker]

/-! ### Tracker basics -/

theorem runTracker_nil (sess : String) (eng : RequestEngine) (s : TrackerState) :
    runTracker sess eng [] s = s := rfl

theorem runTracker_cons (sess : String) (eng : RequestEngine) (te : Nat × CdpEvent)
    (evs : List (Nat × CdpEvent)) (s : TrackerState) :
    runTracker sess eng (te :: evs) s =
      runTracker sess eng evs (trackerStep sess eng te.1 te.2 s) := rfl

theorem runTracker_append (sess : String) (eng : RequestEngine)
    (l₁ l₂ : List (Nat × CdpEvent)) (s : TrackerState) :
    runTracker sess eng (l₁ ++ l₂) s = runTracker sess eng l₂ (runTracker sess eng l₁ s) :=
  List.foldl_append _ _ _ _

theorem eraseKey_of_findVal_none {κ α : Type} [DecidableEq κ] {k : κ}
    {l : List (κ × α)} (h : findVal k l = none) : eraseKey k l = l := by
  induction l with
  | nil => rfl
  | cons p rest ih =>
    obtain ⟨k', v⟩ := p
    rw [findVal_cons] at h
    by_cases hk : k' = k
    · rw [if_pos hk] at h
      cases h
    · rw [if_neg hk] at h
      rw [eraseKey, if_neg hk, ih h]

theorem finalizeHop_frame (mid? : Option MetricId) (f : Bool) (t : Nat)
    (s : TrackerState) :
    (finalizeHop mid? f t s).activeRequestId = s.activeRequestId ∧
    (finalizeHop mid? f t s).currentJobId = s.currentJobId ∧
    (finalizeHop mid? f t s).hopIndexByRequestId = s.hopIndexByRequestId := by
  unfold finalizeHop
  cases mid? with
  | none => exact ⟨rfl, rfl, rfl⟩
  | some mid =>
    cases hfv : findVal mid s.metrics with
    | none => simp [hfv]
    | some m => simp [hfv]

theorem finalizeHop_recorded (mid? : Option MetricId) (f : Bool) (t : Nat)
    (s : TrackerState) :
    (finalizeHop mid? f t s).recorded = s.recorded ∨
    ∃ m', (finalizeHop mid? f t s).recorded = s.recorded ++ [m'] ∧
      m'.totalBytes = m'.requestBytes + m'.responseBytes ∧ m'.endTime = some t := by
  unfold finalizeHop
  cases mid? with
  | none => exact Or.inl rfl
  | some mid =>
    cases hfv : findVal mid s.metrics with
    | none => exact Or.inl (by simp [hfv])
    | some m =>
      refine Or.inr ⟨{ m with failed := some f
                              totalBytes := m.requestBytes + m.responseBytes
                              endTime := some t }, ?_, rfl, rfl⟩
      simp [hfv]

/-- `finalizeHop` over any state with recorded log `rec` either keeps the log
or appends one well-formed finalized metric. -/
theorem finalizeHop_recorded_of (mid? : Option MetricId) (f : Bool) (t : Nat)
    (x : TrackerState) {rec : List RequestTrafficMetric} (hx : x.recorded = rec) :
    (finalizeHop mid? f t x).recorded = rec ∨
    ∃ m', (finalizeHop mid? f t x).recorded = rec ++ [m'] ∧
      m'.totalBytes = m'.requestBytes + m'.responseBytes ∧ m'.endTime = some t := by
  subst hx
  exact finalizeHop_recorded mid? f t x

theorem trackerStep_recorded (sess : String) (eng : RequestEngine) (t : Nat)
    (e : CdpEvent) (s : TrackerState) :
    (trackerStep sess eng t e s).recorded = s.recorded ∨
    ∃ m', (trackerStep sess eng t e s).recorded = s.recorded ++ [m'] ∧
      m'.totalBytes = m'.requestBytes + m'.responseBytes ∧ m'.endTime = some t := by
  cases e with
  | requestWillBeSent rid url meth est redirect =>
    cases hcj : s.currentJobId with
    | none => exact Or.inl (by simp [trackerStep, hcj])
    | some j =>
      by_cases hje : j = ""
      · exact Or.inl (by simp [trackerStep, hcj, hje])
      · cases redirect with
        | false => exact Or.inl (by simp [trackerStep, hcj, hje])
        | true =>
          simp only [trackerStep, hcj, if_neg hje, if_true]
          exact finalizeHop_recorded_of _ _ _ _ rfl
  | requestWillBeSentExtraInfo rid hb =>
    cases hfv : findVal rid s.activeRequestId with
    | none => exact Or.inl (by cases hb <;> simp [trackerStep, hfv])
    | some mid =>
      cases hb with
      | none => exact Or.inl (by simp [trackerStep, hfv])
      | some len =>
        cases hm : findVal mid s.metrics with
        | none => exact Or.inl (by simp [trackerStep, hfv, hm])
        | some m => exact Or.inl (by simp [trackerStep, hfv, hm])
  | responseReceived rid status url c1 c2 =>
    cases hfv : findVal rid s.activeRequestId with
    | none => exact Or.inl (by simp [trackerStep, hfv])
    | some mid =>
      cases hm : findVal mid s.metrics with
      | none => exact Or.inl (by simp [trackerStep, hfv, hm])
      | some m => exact Or.inl (by simp [trackerStep, hfv, hm])
  | dataReceived rid len =>
    cases hfv : findVal rid s.activeRequestId with
    | none => exact Or.inl (by simp [trackerStep, hfv])
    | some mid =>
      cases hm : findVal mid s.metrics with
      | none => exact Or.inl (by simp [trackerStep, hfv, hm])
      | some m => exact Or.inl (by simp [trackerStep, hfv, hm])
  | loadingFinished rid len =>
    cases hfv : findVal rid s.activeRequestId with
    | none =>
      simp only [trackerStep, hfv]
      exact finalizeHop_recorded_of _ _ _ _ rfl
    | some mid =>
      cases hm : findVal mid s.metrics with
      | none =>
        simp only [trackerStep, hfv, hm]
        exact finalizeHop_recorded_of _ _ _ _ rfl
      | some m =>
        by_cases hz : m.responseBytes = 0
        · simp only [trackerStep, hfv, hm, if_pos hz]
          exact finalizeHop_recorded_of _ _ _ _ rfl
        · simp only [trackerStep, hfv, hm, if_neg hz]
          exact finalizeHop_recorded_of _ _ _ _ rfl
  | loadingFailed rid =>
    simp only [trackerStep]
    exact finalizeHop_recorded_of _ _ _ _ rfl
  | setJobContext j => exact Or.inl rfl

theorem runTracker_recorded_wf (sess : String) (eng : RequestEngine)
    (evs : List (Nat × CdpEvent)) :
    ∀ s : TrackerState,
      (∀ m ∈ s.recorded,
        m.totalBytes = m.requestBytes + m.responseBytes ∧ m.endTime.isSome) →
      ∀ m ∈ (runTracker sess eng evs s).recorded,
        m.totalBytes = m.requestBytes + m.responseBytes ∧ m.endTime.isSome := by
  induction evs with
  | nil => intro s h; exact h
  | cons te evs ih =>
    intro s h
    rw [runTracker_cons]
    refine ih _ ?_
    rcases trackerStep_recorded sess eng te.1 te.2 s with h1 | ⟨m', h1, h2, h3⟩
    · rw [h1]; exact h
    · rw [h1]
      intro m hm
      rcases List.mem_append.mp hm with hmem | hmem
      · exact h m hmem
      · rw [List.mem_singleton] at hmem
        subst hmem
        exact ⟨h2, by rw [h3]; rfl⟩

/-! ### Single-request and redirect-chain scenario lemmas -/

theorem open_step (sess : String) (eng : RequestEngine) (t0 : Nat)
    (j rid u mth : String) (est : Int) (hj : j ≠ "") :
    trackerStep sess eng t0 (CdpEvent.requestWillBeSent rid u mth est false)
      { initTracker with currentJobId := some j } =
    { currentJobId := some j
      activeRequestId := [(rid, { session := sess, requestId := rid, hop := 0 })]
      hopIndexByRequestId := [(rid, 1)]
      metrics := [({ session := sess, requestId := rid, hop := 0 },
        { id := { session := sess, requestId := rid, hop := 0 }, jobId := j
          engine := eng, url := u, method := mth, status := none, startTime := t0
          endTime := none, failed := none, fromCache := none, requestBytes := est
          responseBytes := 0, totalBytes := 0 })]
      recorded := [] } := by
  simp [trackerStep, initTracker, nextHopIndex, setKey, findVal, hj]

theorem runData (sess : String) (eng : RequestEngine) (rid : String)
    (ds : List (Nat × Int)) :
    ∀ (j : String) (mid : MetricId) (hix : List (String × Nat))
      (m : RequestTrafficMetric) (rec : List RequestTrafficMetric),
      ∃ rb : Int,
        runTracker sess eng (ds.map (fun p => (p.1, CdpEvent.dataReceived rid p.2)))
          { currentJobId := some j, activeRequestId := [(rid, mid)]
            hopIndexByRequestId := hix, metrics := [(mid, m)], recorded := rec } =
        { currentJobId := some j, activeRequestId := [(rid, mid)]
          hopIndexByRequestId := hix
          metrics := [(mid, { m with responseBytes := rb })], recorded := rec } := by
  induction ds with
  | nil =>
    intro j mid hix m rec
    exact ⟨m.responseBytes, rfl⟩
  | cons p ds ih =>
    intro j mid hix m rec
    have hstep : trackerStep sess eng p.1 (CdpEvent.dataReceived rid p.2)
        { currentJobId := some j, activeRequestId := [(rid, mid)]
          hopIndexByRequestId := hix, metrics := [(mid, m)], recorded := rec } =
        { currentJobId := some j, activeRequestId := [(rid, mid)]
          hopIndexByRequestId := hix
          metrics := [(mid, { m with responseBytes := m.responseBytes + p.2 })]
          recorded := rec } := by
      simp [trackerStep, findVal, setKey]
    obtain ⟨rb, hrb⟩ := ih j mid hix { m with responseBytes := m.responseBytes + p.2 } rec
    refine ⟨rb, ?_⟩
    rw [List.map_cons, runTracker_cons]
    rw [hstep]
    exact hrb

theorem finish_step (sess : String) (eng : RequestEngine) (tf : Nat) (rid : String)
    (lenF : Int) (j : String) (mid : MetricId) (hix : List (String × Nat))
    (m : RequestTrafficMetric) (rec : List RequestTrafficMetric) :
    trackerStep sess eng tf (CdpEvent.loadingFinished rid lenF)
      { currentJobId := some j, activeRequestId := [(rid, mid)]
        hopIndexByRequestId := hix, metrics := [(mid, m)], recorded := rec } =
    { currentJobId := some j, activeRequestId := []
      hopIndexByRequestId := hix, metrics := []
      recorded := rec ++
        [{ m with responseBytes := if m.responseBytes = 0 then lenF else m.responseBytes
                  failed := some false
                  totalBytes := m.requestBytes +
                    (if m.responseBytes = 0 then lenF else m.responseBytes)
                  endTime := some tf }] } := by
  by_cases hz : m.responseBytes = 0
  · simp [trackerStep, findVal, setKey, eraseKey, finalizeHop, hz]
  · simp [trackerStep, findVal, setKey, eraseKey, finalizeHop, hz]

/-- Claim C4: every finalized metric satisfies
`totalBytes = requestBytes + responseBytes` with `endTime` set at
finalization; and any event sequence for exactly one non-redirected request
that completes successfully (initiated, optional data events,
loading-finished, with a job context set) finalizes and records exactly one
metric. -/
theorem C4_single_request_metric :
    (∀ (sess : String) (eng : RequestEngine) (evs : List (Nat × CdpEvent))
      (m : RequestTrafficMetric),
      m ∈ (runTracker sess eng evs initTracker).recorded →
      m.totalBytes = m.requestBytes + m.responseBytes ∧ m.endTime.isSome) ∧
    (∀ (sess : String) (eng : RequestEngine) (j rid u mth : String)
      (est lenF : Int) (ts t0 tf : Nat) (ds : List (Nat × Int)), j ≠ "" →
      ∃ m, (runTracker sess eng
          ((ts, CdpEvent.setJobContext j) ::
            (t0, CdpEvent.requestWillBeSent rid u mth est false) ::
            (ds.map (fun p => (p.1, CdpEvent.dataReceived rid p.2)) ++
              [(tf, CdpEvent.loadingFinished rid lenF)]))
          initTracker).recorded = [m] ∧
        m.totalBytes = m.requestBytes + m.responseBytes ∧
        m.endTime = some tf ∧ m.failed = some false) := by
  constructor
  · intro sess eng evs m hm
    refine runTracker_recorded_wf sess eng evs initTracker ?_ m hm
    intro m' hm'
    simp [initTracker] at hm'
  · intro sess eng j rid u mth est lenF ts t0 tf ds hj
    rw [runTracker_cons]
    have hsetjob : trackerStep sess eng ts (CdpEvent.setJobContext j) initTracker =
        { initTracker with currentJobId := some j } := rfl
    rw [hsetjob, runTracker_cons]
    show ∃ m, (runTracker sess eng _
        (trackerStep sess eng t0 (CdpEvent.requestWillBeSent rid u mth est false)
          { initTracker with currentJobId := some j })).recorded = [m] ∧ _
    rw [open_step sess eng t0 j rid u mth est hj, runTracker_append]
    obtain ⟨rb, hrb⟩ := runData sess eng rid ds j
      { session := sess, requestId := rid, hop := 0 } [(rid, 1)]
      { id := { session := sess, requestId := rid, hop := 0 }, jobId := j
        engine := eng, url := u, method := mth, status := none, startTime := t0
        endTime := none, failed := none, fromCache := none, requestBytes := est
        responseBytes := 0, totalBytes := 0 } []
    rw [hrb, runTracker_cons, runTracker_nil, finish_step]
    refine ⟨_, rfl, rfl, rfl, rfl⟩

/-- Witness for C4: one request with no data events, estimate 10 and fallback
body length 7 finalizes exactly one not-failed metric at time 2. -/
theorem C4_single_request_metric_witness :
    ∃ m, (runTracker "s" RequestEngine.playwright
        ((0, CdpEvent.setJobContext "j") ::
          (1, CdpEvent.requestWillBeSent "r" "u" "GET" 10 false) ::
          (([] : List (Nat × Int)).map (fun p => (p.1, CdpEvent.dataReceived "r" p.2)) ++
            [(2, CdpEvent.loadingFinished "r" 7)]))
        initTracker).recorded = [m] ∧
      m.totalBytes = m.requestBytes + m.responseBytes ∧
      m.endTime = some 2 ∧ m.failed = some false :=
  C4_single_request_metric.2 "s" RequestEngine.playwright "j" "r" "u" "GET" 10 7 0 1 2 []
    (by decide)

theorem chain_redirect_step (sess : String) (eng : RequestEngine)
    (j rid u mth : String) (est : Int) (hj : j ≠ "") (k : Nat) :
    trackerStep sess eng 0 (CdpEvent.requestWillBeSent rid u mth est true)
      (chainState sess eng j rid u mth est k) =
    chainState sess eng j rid u mth est (k + 1) := by
  simp [trackerStep, chainState, nextHopIndex, findVal, setKey, eraseKey,
    finalizeHop, chainOpenMetric, chainDoneMetric, hj, List.range_succ]

theorem chain_inits_run (sess : String) (eng : RequestEngine)
    (j rid u mth : String) (est : Int) (hj : j ≠ "") :
    ∀ k : Nat, runTracker sess eng (chainEventsInit rid u mth est k)
      { initTracker with currentJobId := some j } =
      chainState sess eng j rid u mth est k := by
  intro k
  induction k with
  | zero =>
    have h0 : chainEventsInit rid u mth est 0 =
        [(0, CdpEvent.requestWillBeSent rid u mth est false)] := by
      simp [chainEventsInit]
    rw [h0, runTracker_cons, runTracker_nil, open_step sess eng 0 j rid u mth est hj]
    simp [chainState, chainOpenMetric]
  | succ k ih =>
    have hsplit : chainEventsInit rid u mth est (k + 1) =
        chainEventsInit rid u mth est k ++
          [(0, CdpEvent.requestWillBeSent rid u mth est true)] := by
      simp [chainEventsInit, List.range_succ]
    rw [hsplit, runTracker_append, ih, runTracker_cons, runTracker_nil,
      chain_redirect_step sess eng j rid u mth est hj k]

theorem chain_finish_step (sess : String) (eng : RequestEngine)
    (j rid u mth : String) (est lenF : Int) (N : Nat) :
    trackerStep sess eng 0 (CdpEvent.loadingFinished rid lenF)
      (chainState sess eng j rid u mth est N) =
    { currentJobId := some j, activeRequestId := []
      hopIndexByRequestId := [(rid, N + 1)], metrics := []
      recorded := (List.range N).map (chainDoneMetric sess eng j rid u mth est) ++
        [chainLastMetric sess eng j rid u mth est N lenF] } := by
  have h := finish_step sess eng 0 rid lenF j
    { session := sess, requestId := rid, hop := N } [(rid, N + 1)]
    (chainOpenMetric sess eng j rid u mth est N)
    ((List.range N).map (chainDoneMetric sess eng j rid u mth est))
  rw [show chainState sess eng j rid u mth est N =
    { currentJobId := some j
      activeRequestId := [(rid, { session := sess, requestId := rid, hop := N })]
      hopIndexByRequestId := [(rid, N + 1)]
      metrics := [({ session := sess, requestId := rid, hop := N },
        chainOpenMetric sess eng j rid u mth est N)]
      recorded := (List.range N).map (chainDoneMetric sess eng j rid u mth est) }
    from rfl]
  rw [h]
  simp [chainOpenMetric, chainLastMetric]

/-- Claim C5: for a chain of `N` redirects followed by a final response on one
transport id (with a job context set), exactly `N + 1` metrics are finalized,
carrying the distinct, monotonically increasing hop indices `0..N` for that
transport id and all marked not-failed; and after the first `k + 1`
initiation events exactly `k` metrics have been finalized, i.e. each hop is
finalized while its successor's initiation event is processed, before that
successor's metric exists. -/
theorem C5_redirect_chain (sess : String) (eng : RequestEngine)
    (j rid u mth : String) (est lenF : Int) (N : Nat) (hj : j ≠ "") :
    ((runTracker sess eng
        ((0, CdpEvent.setJobContext j) :: chainEvents rid u mth est N lenF)
        initTracker).recorded.length = N + 1) ∧
    ((runTracker sess eng
        ((0, CdpEvent.setJobContext j) :: chainEvents rid u mth est N lenF)
        initTracker).recorded.map (fun m => m.id.hop) = List.range (N + 1)) ∧
    (∀ m ∈ (runTracker sess eng
        ((0, CdpEvent.setJobContext j) :: chainEvents rid u mth est N lenF)
        initTracker).recorded,
      m.failed = some false ∧ m.id.requestId = rid ∧ m.id.session = sess) ∧
    (∀ k : Nat, k ≤ N →
      (runTracker sess eng
        ((0, CdpEvent.setJobContext j) :: chainEventsInit rid u mth est k)
        initTracker).recorded.length = k) := by
  have hsetjob : ∀ evs : List (Nat × CdpEvent),
      runTracker sess eng ((0, CdpEvent.setJobContext j) :: evs) initTracker =
      runTracker sess eng evs { initTracker with currentJobId := some j } :=
    fun evs => rfl
  have hfinal : runTracker sess eng (chainEvents rid u mth est N lenF)
      { initTracker with currentJobId := some j } =
      { currentJobId := some j, activeRequestId := []
        hopIndexByRequestId := [(rid, N + 1)], metrics := []
        recorded := (List.range N).map (chainDoneMetric sess eng j rid u mth est) ++
          [chainLastMetric sess eng j rid u mth est N lenF] } := by
    rw [show chainEvents rid u mth est N lenF =
        chainEventsInit rid u mth est N ++ [(0, CdpEvent.loadingFinished rid lenF)]
      from rfl]
    rw [runTracker_append, chain_inits_run sess eng j rid u mth est hj N,
      runTracker_cons, runTracker_nil, chain_finish_step]
  refine ⟨?_, ?_, ?_, ?_⟩
  · rw [hsetjob, hfinal]
    simp
  · rw [hsetjob, hfinal]
    have hhop : ((fun m : RequestTrafficMetric => m.id.hop) ∘
        chainDoneMetric sess eng j rid u mth est) = fun i => i := by
      funext i
      simp [chainDoneMetric, chainOpenMetric]
    simp [List.map_append, List.map_map, hhop, chainLastMetric, chainOpenMetric,
      List.range_succ]
  · intro m hm
    rw [hsetjob, hfinal] at hm
    simp only [List.mem_append, List.mem_singleton, List.mem_map] at hm
    rcases hm with ⟨i, _, rfl⟩ | rfl
    · exact ⟨rfl, rfl, rfl⟩
    · exact ⟨rfl, rfl, rfl⟩
  · intro k hk
    rw [hsetjob, chain_inits_run sess eng j rid u mth est hj k]
    simp [chainState]

/-- Witness for C5: a one-redirect chain yields two finalized metrics with hop
indices 0 and 1, hop 0 finalized before hop 1's metric is created. -/
theorem C5_redirect_chain_witness :
    ((runTracker "s" RequestEngine.playwright
        ((0, CdpEvent.setJobContext "j") :: chainEvents "r" "u" "GET" 10 1 7)
        initTracker).recorded.length = 1 + 1) ∧
    ((runTracker "s" RequestEngine.playwright
        ((0, CdpEvent.setJobContext "j") :: chainEvents "r" "u" "GET" 10 1 7)
        initTracker).recorded.map (fun m => m.id.hop) = List.range (1 + 1)) ∧
    (∀ m ∈ (runTracker "s" RequestEngine.playwright
        ((0, CdpEvent.setJobContext "j") :: chainEvents "r" "u" "GET" 10 1 7)
        initTracker).recorded,
      m.failed = some false ∧ m.id.requestId = "r" ∧ m.id.session = "s") ∧
    (∀ k : Nat, k ≤ 1 →
      (runTracker "s" RequestEngine.playwright
        ((0, CdpEvent.setJobContext "j") :: chainEventsInit "r" "u" "GET" 10 k)
        initTracker).recorded.length = k) :=
  C5_redirect_chain "s" RequestEngine.playwright "j" "r" "u" "GET" 10 7 1 (by decide)

/-! ### Idempotent finalization and the no-context fixed point -/

theorem step_finished_active (sess : String) (eng : RequestEngine) (t : Nat)
    (rid : String) (len : Int) (s : TrackerState) :
    (trackerStep sess eng t (CdpEvent.loadingFinished rid len) s).activeRequestId =
      eraseKey rid s.activeRequestId := by
  cases hfv : findVal rid s.activeRequestId with
  | none => simp [trackerStep, hfv, (finalizeHop_frame none false t s).1]
  | some mid =>
    cases hm : findVal mid s.metrics with
    | none => simp [trackerStep, hfv, hm, (finalizeHop_frame (some mid) false t s).1]
    | some m =>
      by_cases hz : m.responseBytes = 0
      · simp [trackerStep, hfv, hm, hz,
          (finalizeHop_frame (some mid) false t
            { s with metrics := setKey mid { m with responseBytes := len } s.metrics }).1]
      · simp [trackerStep, hfv, hm, hz, (finalizeHop_frame (some mid) false t s).1]

theorem step_failed_noop (sess : String) (eng : RequestEngine) (t : Nat)
    (rid : String) (s : TrackerState) (h : findVal rid s.activeRequestId = none) :
    trackerStep sess eng t (CdpEvent.loadingFailed rid) s = s := by
  simp [trackerStep, h, finalizeHop, eraseKey_of_findVal_none h]

/-- Claim C7: finalization is idempotent — finalizing a metric id that is not
open is a silent no-op, and a stray loading-failed event arriving after
loading-finished for the same transport id changes no tracker state and
records nothing the second time. -/
theorem C7_finalize_idempotent :
    (∀ (mid : MetricId) (f : Bool) (t : Nat) (s : TrackerState),
      findVal mid s.metrics = none → finalizeHop (some mid) f t s = s) ∧
    (∀ (sess : String) (eng : RequestEngine) (rid : String) (t1 t2 : Nat)
      (len : Int) (s : TrackerState),
      trackerStep sess eng t2 (CdpEvent.loadingFailed rid)
        (trackerStep sess eng t1 (CdpEvent.loadingFinished rid len) s) =
      trackerStep sess eng t1 (CdpEvent.loadingFinished rid len) s) := by
  constructor
  · intro mid f t s h
    simp [finalizeHop, h]
  · intro sess eng rid t1 t2 len s
    apply step_failed_noop
    rw [step_finished_active]
    exact findVal_eraseKey_self rid _

/-- Witness for C7: finalizing an unknown metric id on a fresh tracker leaves
it unchanged. -/
theorem C7_finalize_idempotent_witness :
    finalizeHop (some { session := "s", requestId := "r", hop := 0 }) false 0
      initTracker = initTracker :=
  C7_finalize_idempotent.1 { session := "s", requestId := "r", hop := 0 } false 0
    initTracker rfl

theorem step_init_noop (sess : String) (eng : RequestEngine) (t : Nat)
    (e : CdpEvent) (h : ∀ j : String, e ≠ CdpEvent.setJobContext j) :
    trackerStep sess eng t e initTracker = initTracker := by
  cases e with
  | setJobContext j => exact absurd rfl (h j)
  | requestWillBeSent rid u mth est r => rfl
  | requestWillBeSentExtraInfo rid hb => cases hb <;> rfl
  | responseReceived rid st u c1 c2 => rfl
  | dataReceived rid len => rfl
  | loadingFinished rid len => rfl
  | loadingFailed rid => rfl

/-- Claim C8: any protocol event stream observed strictly before the first
`setJobContext` call leaves the tracker in its initial state — zero finalized
metrics, no metric ever created, nothing buffered. -/
theorem C8_no_context_no_metric (sess : String) (eng : RequestEngine)
    (evs : List (Nat × CdpEvent))
    (h : ∀ te ∈ evs, ∀ j : String, te.2 ≠ CdpEvent.setJobContext j) :
    runTracker sess eng evs initTracker = initTracker ∧
    (runTracker sess eng evs initTracker).recorded = [] := by
  have hmain : ∀ evs' : List (Nat × CdpEvent),
      (∀ te ∈ evs', ∀ j : String, te.2 ≠ CdpEvent.setJobContext j) →
      runTracker sess eng evs' initTracker = initTracker := by
    intro evs'
    induction evs' with
    | nil => intro _; rfl
    | cons te tl ih =>
      intro h'
      rw [runTracker_cons,
        step_init_noop sess eng te.1 te.2 (h' te (List.mem_cons_self _ _))]
      exact ih (fun te' hte' => h' te' (List.mem_cons_of_mem _ hte'))
  refine ⟨hmain evs h, ?_⟩
  rw [hmain evs h]
  rfl

/-- Witness for C8: a full request lifecycle observed with no job context set
produces no metric and leaves the tracker untouched. -/
theorem C8_no_context_no_metric_witness :
    runTracker "s" RequestEngine.playwright
        [(0, CdpEvent.requestWillBeSent "r" "u" "GET" 10 false),
         (1, CdpEvent.dataReceived "r" 5),
         (2, CdpEvent.loadingFinished "r" 7)] initTracker = initTracker ∧
    (runTracker "s" RequestEngine.playwright
        [(0, CdpEvent.requestWillBeSent "r" "u" "GET" 10 false),
         (1, CdpEvent.dataReceived "r" 5),
         (2, CdpEvent.loadingFinished "r" 7)] initTracker).recorded = [] :=
  C8_no_context_no_metric "s" RequestEngine.playwright
    [(0, CdpEvent.requestWillBeSent "r" "u" "GET" 10 false),
     (1, CdpEvent.dataReceived "r" 5),
     (2, CdpEvent.loadingFinished "r" 7)]
    (by
      intro te hte j heq
      simp only [List.mem_cons, List.mem_singleton] at hte
      rcases hte with h1 | h1 | h1 | h1
      · subst h1; cases heq
      · subst h1; cases heq
      · subst h1; cases heq
      · cases h1)
